import Mathlib

/-!
# RecipePreviewHandler: the tabular preview of an Arrow/Feather file

A shallow embedding of `RecipePreviewHandler.cpp`: the value stringifier `asStr`, the
session operations `Initialize`, `DoPreview` and `Unload`, and the list-view control that
`DoPreview` fills.  Values behind a pointer are `Option`s (`none` is `NULL`), and an
operation whose C++ behaviour is undefined (a null or mistyped array dereference, a
`ValueOrDie` on an error) yields `none`.

Assumptions of the embedding: allocations (`StrDup`, `_wcsdup`, `push_back`) succeed, every
count fits the `int` loop counters, and the list-view control of the dialog template is a
plain report list without a sort style.
-/

namespace RecipePreview

/-! ## Arrow data model -/

/-- The enumerators of `arrow::Type::type` that the `switch` of `asStr` names; every other
enumerator (NA, BOOL, BINARY, DATE32, LIST, ...) is `other` with its numeric tag. -/
inductive TypeId where
  | UINT8 | INT8 | UINT16 | INT16 | UINT32 | INT32 | UINT64 | INT64
  | HALF_FLOAT | FLOAT | DOUBLE | STRING
  | other (tag : Nat)
  deriving DecidableEq, Repr

/-- An `arrow::Field`: `name()` and `type()->id()`. -/
structure Field where
  name : String
  type : TypeId
  deriving DecidableEq, Repr

/-- The numeric array classes `asStr` casts to; each is `arrow::NumericArray<T>`. -/
inductive ArrayClass where
  | UInt8Array | Int8Array | UInt16Array | Int16Array | UInt32Array | Int32Array
  | UInt64Array | Int64Array | HalfFloatArray | FloatArray | DoubleArray
  deriving DecidableEq, Repr

/-- The dynamic type and contents of an `arrow::Array`.  A numeric array holds the values
that `Value(i)` returns; for `HalfFloatArray`, `FloatArray` and `DoubleArray` the value is
kept as its raw bit pattern.  An array of any other class has only its tag and length. -/
inductive ArrowArray where
  | numeric (cls : ArrayClass) (values : List Int)
  | StringArray (values : List String)
  | other (tag : Nat) (length : Nat)
  deriving DecidableEq, Repr

/-- The type id of the elements of a numeric array class. -/
def ArrayClass.type_id : ArrayClass → TypeId
  | .UInt8Array => .UINT8
  | .Int8Array => .INT8
  | .UInt16Array => .UINT16
  | .Int16Array => .INT16
  | .UInt32Array => .UINT32
  | .Int32Array => .INT32
  | .UInt64Array => .UINT64
  | .Int64Array => .INT64
  | .HalfFloatArray => .HALF_FLOAT
  | .FloatArray => .FLOAT
  | .DoubleArray => .DOUBLE

/-- The value of `array->type_id()`. -/
def ArrowArray.type_id : ArrowArray → TypeId
  | .numeric cls _ => cls.type_id
  | .StringArray _ => .STRING
  | .other tag _ => .other tag

/-- The value of `array->length()`. -/
def ArrowArray.length : ArrowArray → Nat
  | .numeric _ values => values.length
  | .StringArray values => values.length
  | .other _ length => length

/-- The expression `std::static_pointer_cast<cls>(array)->Value(pos)`: defined when `array`
is a non-null array of class `cls` and `pos` is inside it. -/
def Value (cls : ArrayClass) (array : Option ArrowArray) (pos : Nat) : Option Int :=
  match array with
  | some (.numeric cls' values) => if cls' = cls then values[pos]? else none
  | _ => none

/-- The expression `std::static_pointer_cast<arrow::StringArray>(array)->GetString(pos)`. -/
def GetString (array : Option ArrowArray) (pos : Nat) : Option String :=
  match array with
  | some (.StringArray values) => values[pos]?
  | _ => none

/-! ## Text conversion -/

/-- The characters a C string pointer denotes: those before the first NUL. -/
def c_str (s : String) : String :=
  String.mk (s.data.takeWhile (fun ch => ch ≠ Char.ofNat 0))

/-- The characters `std::wostream::operator<<` writes for an integer with the default
flags (decimal, no grouping, a minus sign for negative values). -/
def decimalText (v : Int) : String :=
  if v < 0 then String.mk ('-' :: Nat.toDigits 10 v.natAbs)
  else String.mk (Nat.toDigits 10 v.natAbs)

/-- The floating-point conversions of the stream's `num_put` facet, from the bit pattern of
a `float` or `double` to its text.  They are not modelled and stay a parameter. -/
structure NumPut where
  putFloat : Int → String
  putDouble : Int → String

/-- The text `conv << value` leaves in a fresh `std::wstringstream`, by the C type of the
value returned by `Value`.  The 8, 16, 32 and 64 bit integers (and the `uint16_t` bits of a
half float) select an integer inserter: a wide stream has no character inserter for
`signed char` or `unsigned char`, which promote to `int`. -/
def streamInsert (np : NumPut) : ArrayClass → Int → String
  | .FloatArray, v => np.putFloat v
  | .DoubleArray, v => np.putDouble v
  | _, v => decimalText v

/-- The macro `Convert(Type, Array, Value(pos))`: insert the value into a fresh stream and
return a copy of the stream's text. -/
def Convert (np : NumPut) (cls : ArrayClass) (array : Option ArrowArray) (pos : Nat) :
    Option String :=
  (Value cls array pos).map (fun v => c_str (streamInsert np cls v))

/-- The macro `Convert(arrow::StringArray, Array, GetString(pos).c_str())`. -/
def ConvertString (array : Option ArrowArray) (pos : Nat) : Option String :=
  (GetString array pos).map (fun s => c_str (c_str s))

/-- The function `asStr(field, array, pos)`: a switch over `field->type()->id()`, with the
sentinel text for every type id it does not name. -/
def asStr (np : NumPut) (field : Field) (array : Option ArrowArray) (pos : Nat) :
    Option String :=
  match field.type with
  | .UINT8 => Convert np .UInt8Array array pos
  | .INT8 => Convert np .Int8Array array pos
  | .UINT16 => Convert np .UInt16Array array pos
  | .INT16 => Convert np .Int16Array array pos
  | .UINT32 => Convert np .UInt32Array array pos
  | .INT32 => Convert np .Int32Array array pos
  | .UINT64 => Convert np .UInt64Array array pos
  | .INT64 => Convert np .Int64Array array pos
  | .HALF_FLOAT => Convert np .HalfFloatArray array pos
  | .FLOAT => Convert np .FloatArray array pos
  | .DOUBLE => Convert np .DoubleArray array pos
  | .STRING => ConvertString array pos
  | .other _ => some "-"

/-- The integer element types with the array class of each and the bounds of its values. -/
def integerTypes : List (TypeId × ArrayClass × Int × Int) :=
  [ (.UINT8, .UInt8Array, 0, 2 ^ 8 - 1), (.INT8, .Int8Array, -(2 ^ 7), 2 ^ 7 - 1),
    (.UINT16, .UInt16Array, 0, 2 ^ 16 - 1), (.INT16, .Int16Array, -(2 ^ 15), 2 ^ 15 - 1),
    (.UINT32, .UInt32Array, 0, 2 ^ 32 - 1), (.INT32, .Int32Array, -(2 ^ 31), 2 ^ 31 - 1),
    (.UINT64, .UInt64Array, 0, 2 ^ 64 - 1), (.INT64, .Int64Array, -(2 ^ 63), 2 ^ 63 - 1) ]

/-- Reading a run of decimal digits as a number; `none` unless the run is non-empty and
all digits. -/
def parseDigits (cs : List Char) : Option Nat :=
  if cs ≠ [] ∧ cs.all Char.isDigit = true then
    some (cs.foldl (fun acc ch => 10 * acc + (ch.toNat - 48)) 0)
  else none

/-- Reading a decimal text back as an integer: an optional leading minus sign, then
digits. -/
def parseDecimal (s : String) : Option Int :=
  match s.data with
  | '-' :: cs =>
      match parseDigits cs with
      | some n => some (-(n : Int))
      | none => none
  | cs =>
      match parseDigits cs with
      | some n => some (n : Int)
      | none => none

/-! ## Reader, record batches and schema -/

/-- An `arrow::RecordBatch`: its schema's fields, `num_rows()` and its columns. -/
structure RecordBatch where
  schema : List Field
  num_rows : Nat
  columns : List ArrowArray
  deriving DecidableEq, Repr

/-- An open `arrow::ipc::RecordBatchFileReader`: `schema()->fields()` and the record
batches of the file, in file order. -/
structure RecordBatchFileReader where
  schema : List Field
  batches : List RecordBatch
  deriving DecidableEq, Repr

/-- The value of `reader->num_record_batches()`. -/
def RecordBatchFileReader.num_record_batches (reader : RecordBatchFileReader) : Nat :=
  reader.batches.length

/-- The result of `reader->ReadRecordBatch(i)`; `none` is an error status. -/
def RecordBatchFileReader.ReadRecordBatch (reader : RecordBatchFileReader) (i : Nat) :
    Option RecordBatch :=
  reader.batches[i]?

/-- The result of `reader->CountRows()`: the rows of all record batches together. -/
def RecordBatchFileReader.CountRows (reader : RecordBatchFileReader) : Option Nat :=
  some (reader.batches.map RecordBatch.num_rows).sum

/-- The function `arrow::Schema::GetFieldIndex`: the index of the field with this name;
no index (-1) when no field or more than one field has the name. -/
def GetFieldIndex (schema : List Field) (name : String) : Option Nat :=
  if (schema.map Field.name).count name = 1 then
    some ((schema.map Field.name).indexOf name)
  else none

/-- The function `arrow::RecordBatch::GetColumnByName`: the column at the field index of
the name in the batch's schema, null when there is no such index. -/
def RecordBatch.GetColumnByName (rb : RecordBatch) (name : String) : Option ArrowArray :=
  match GetFieldIndex rb.schema name with
  | some i => rb.columns[i]?
  | none => none

/-! ## The list-view control -/

/-- The constant `LVCFMT_RIGHT` of the control library. -/
def LVCFMT_RIGHT : Int := 1

/-- The constant `LVSCW_AUTOSIZE_USEHEADER` of the control library. -/
def LVSCW_AUTOSIZE_USEHEADER : Int := -2

/-- The fields of `LVCOLUMN` that the mask `LVCF_FMT | LVCF_WIDTH | LVCF_TEXT |
LVCF_SUBITEM` selects. -/
structure LVCOLUMN where
  fmt : Int
  cx : Int
  pszText : String
  iSubItem : Nat
  deriving DecidableEq, Repr

/-- The fields of `LVITEM` that the mask `LVIF_TEXT` selects, with the item position. -/
structure LVITEM where
  iItem : Nat
  iSubItem : Nat
  pszText : String
  deriving DecidableEq, Repr

/-- The messages `DoPreview` sends to the list view `IDC_LIST_DATA`. -/
inductive LVM where
  | INSERTCOLUMN (iCol : Nat) (col : LVCOLUMN)
  | SETCOLUMNWIDTH (iCol : Nat) (cx : Int)
  | INSERTITEM (item : LVITEM)
  | SETITEM (item : LVITEM)
  deriving DecidableEq, Repr

/-- The texts a list-view control holds: the column header texts, and for every item (a
row of the grid) the text of its label and subitems by column index.  The field
`received` records every message sent to the control, in order. -/
structure ListView where
  columns : List String
  items : List (List String)
  received : List LVM
  deriving DecidableEq, Repr

/-- A newly created control: no column, no item. -/
def ListView.empty : ListView :=
  { columns := [], items := [], received := [] }

/-- Inserting a new element at an index, at the end when the index is past it. -/
def insertAt {α : Type} : List α → Nat → α → List α
  | [], _, x => [x]
  | y :: ys, 0, x => x :: y :: ys
  | y :: ys, i + 1, x => y :: insertAt ys i x

/-- Setting the text of subitem `c` of one item; subitems never set before read as
empty text. -/
def setSubItemText : List String → Nat → String → List String
  | [], 0, t => [t]
  | [], c + 1, t => "" :: setSubItemText [] c t
  | _ :: xs, 0, t => t :: xs
  | x :: xs, c + 1, t => x :: setSubItemText xs c t

/-- Setting the text of subitem `c` of the existing item at index `i`; no item is
created, and an index past the last item changes nothing. -/
def setItemText : List (List String) → Nat → Nat → String → List (List String)
  | [], _, _, _ => []
  | row :: rest, 0, c, t => setSubItemText row c t :: rest
  | row :: rest, i + 1, c, t => row :: setItemText rest i c t

/-- The effect of one message on the control.  `LVM_INSERTCOLUMN` inserts a header at the
column index; `LVM_SETCOLUMNWIDTH` changes no text; `LVM_INSERTITEM` inserts a NEW item
at index `iItem` (its `iSubItem` must be zero), moving the items from that index on down
by one; `LVM_SETITEM` sets a subitem text of an existing item.  Columns are inserted
while the control has no item, as `DoPreview` does. -/
def ListView.send (lv : ListView) (msg : LVM) : ListView :=
  match msg with
  | .INSERTCOLUMN iCol col =>
      { lv with columns := insertAt lv.columns iCol col.pszText,
                received := lv.received ++ [msg] }
  | .SETCOLUMNWIDTH _ _ => { lv with received := lv.received ++ [msg] }
  | .INSERTITEM item =>
      { lv with items := if item.iSubItem = 0 then insertAt lv.items item.iItem [item.pszText]
                         else lv.items,
                received := lv.received ++ [msg] }
  | .SETITEM item =>
      { lv with items := setItemText lv.items item.iItem item.iSubItem item.pszText,
                received := lv.received ++ [msg] }

/-- The macro `ListView_InsertColumn(hwnd, iCol, &lvc)`. -/
def ListView_InsertColumn (lv : ListView) (iCol : Nat) (lvc : LVCOLUMN) : ListView :=
  lv.send (.INSERTCOLUMN iCol lvc)

/-- The macro `ListView_SetColumnWidth(hwnd, iCol, cx)`. -/
def ListView_SetColumnWidth (lv : ListView) (iCol : Nat) (cx : Int) : ListView :=
  lv.send (.SETCOLUMNWIDTH iCol cx)

/-- The macro `ListView_InsertItem(hwnd, &item)`. -/
def ListView_InsertItem (lv : ListView) (item : LVITEM) : ListView :=
  lv.send (.INSERTITEM item)

/-- The macro `ListView_SetItem(hwnd, &item)`. -/
def ListView_SetItem (lv : ListView) (item : LVITEM) : ListView :=
  lv.send (.SETITEM item)

/-- The text the grid shows at row `r`, column `c`; `none` when there is no such row or
the row has no text there. -/
def ListView.cell (lv : ListView) (r c : Nat) : Option String :=
  (lv.items[r]?).bind (fun row => row[c]?)

/-- The cell a message writes: item index, subitem index and text. -/
def LVM.cellWrite : LVM → Option (Nat × Nat × String)
  | .INSERTITEM item => some (item.iItem, item.iSubItem, item.pszText)
  | .SETITEM item => some (item.iItem, item.iSubItem, item.pszText)
  | _ => none

/-- The header a message adds: column index and the `LVCOLUMN` passed. -/
def LVM.columnInsert : LVM → Option (Nat × LVCOLUMN)
  | .INSERTCOLUMN iCol col => some (iCol, col)
  | _ => none

/-- All cell writes the control received, in order. -/
def ListView.cellWrites (lv : ListView) : List (Nat × Nat × String) :=
  lv.received.filterMap LVM.cellWrite

/-- All header insertions the control received, in order. -/
def ListView.columnInserts (lv : ListView) : List (Nat × LVCOLUMN) :=
  lv.received.filterMap LVM.columnInsert

/-! ## The preview session -/

/-- A window handle; `NULL` is `none` of `Option HWND`. -/
abbrev HWND := Nat

/-- A 32-bit `HRESULT` as its unsigned value. -/
abbrev HRESULT := Nat

/-- The constant `S_OK`. -/
def S_OK : HRESULT := 0

/-- The constant `E_FAIL`. -/
def E_FAIL : HRESULT := 0x80004005

/-- The constant `E_INVALIDARG`. -/
def E_INVALIDARG : HRESULT := 0x80070057

/-- The macro `HRESULT_FROM_WIN32`: zero and values with the top bit set stay, any other
error code goes to the Win32 facility. -/
def HRESULT_FROM_WIN32 (x : Nat) : HRESULT :=
  if x = 0 ∨ 2 ^ 31 ≤ x then x % 2 ^ 32 else x % 2 ^ 16 + 0x80070000

/-- A `RECT`. -/
structure RECT where
  left : Int
  top : Int
  right : Int
  bottom : Int
  deriving DecidableEq, Repr

/-- The value a 32-bit signed `LONG` or `int` holds for the exact result `x`: its
two's-complement wrap. -/
def wrapInt32 (x : Int) : Int := (x + 2 ^ 31) % 2 ^ 32 - 2 ^ 31

/-- The function `RECTWIDTH`, a 32-bit subtraction. -/
def RECTWIDTH (rc : RECT) : Int := wrapInt32 (rc.right - rc.left)

/-- The function `RECTHEIGHT`, a 32-bit subtraction. -/
def RECTHEIGHT (rc : RECT) : Int := wrapInt32 (rc.bottom - rc.top)

/-- The constant `CorrectWidth`. -/
def CorrectWidth : Int := 25

/-- The constant `CorrectHeight`. -/
def CorrectHeight : Int := 25

/-- The dialog `IDD_MAINDIALOG` that `m_hwndPreview` refers to: its parent, its size, the
size of the list view, the texts of its three labels, the list view, and whether it is
shown. -/
structure PreviewDialog where
  hwndParent : Option HWND
  size : Int × Int
  listSize : Int × Int
  IDC_STATIC_TITLE : String
  IDC_LIST_DATA : ListView
  IDC_STATIC_COLS : String
  IDC_STATIC_ROWS : String
  shown : Bool
  deriving DecidableEq, Repr

/-- Modelled from the spec: the dialog template `IDD_MAINDIALOG` (the resource script) is
not among the sources.  The dialog `CreateDialog` returns starts as the spec's empty sink:
its list view has no column and no item; it is not yet sized or shown, and its three
labels are set by `DoPreview` before it is shown. -/
def PreviewDialog.created (hwndParent : Option HWND) : PreviewDialog :=
  { hwndParent := hwndParent, size := (0, 0), listSize := (0, 0), IDC_STATIC_TITLE := "",
    IDC_LIST_DATA := ListView.empty, IDC_STATIC_COLS := "", IDC_STATIC_ROWS := "",
    shown := false }

/-- The members of `RecipePreviewHandler`, as the constructor initialises them and the
methods use them; `stored` is the list of strings the handler allocated for the view. -/
structure RecipePreviewHandler where
  m_cRef : Nat
  m_pPathFile : Option String
  m_hwndParent : Option HWND
  m_rcParent : RECT
  m_hwndPreview : Option PreviewDialog
  m_punkSite : Option Nat
  stored : List String
  deriving DecidableEq, Repr

/-- What the calls that leave the program answer: the narrowing of the path, the Arrow
filesystem and reader factories (`none` is an error status), `CreateDialog`,
`GetLastError`, and the floating-point text conversions. -/
structure Env where
  CW2A : String → String
  FileSystemFromUriOrPath : String → Option Nat
  OpenInputFile : Nat → String → Option Nat
  Open : Nat → Option RecordBatchFileReader
  CreateDialog : Option HWND → Bool
  GetLastError : Nat
  numPut : NumPut

/-- The method `RecipePreviewHandler::Initialize(pszFilePath, grfMode)`. -/
def Initialize (self : RecipePreviewHandler) (pszFilePath : Option String) (_grfMode : Nat) :
    HRESULT × RecipePreviewHandler :=
  match pszFilePath with
  | some path => (S_OK, { self with m_pPathFile := some path })
  | none => (E_INVALIDARG, self)

/-- The loop `for (auto f : schema->fields())` that adds the column headers, from column
index `icol`, over the stored strings and the list view. -/
def columnLoop : List Field → Nat → List String × ListView → List String × ListView
  | [], _, st => st
  | f :: fs, icol, (stored, hlistView) =>
      let text := c_str (c_str f.name)
      let stored := stored ++ [text]
      let lvc : LVCOLUMN := { iSubItem := icol, pszText := text, cx := 100, fmt := LVCFMT_RIGHT }
      let hlistView := ListView_InsertColumn hlistView icol lvc
      let hlistView := ListView_SetColumnWidth hlistView icol LVSCW_AUTOSIZE_USEHEADER
      columnLoop fs (icol + 1) (stored, hlistView)

/-- The loop `for (int s = 0; s < rb->num_rows(); ++s)` with `todo` iterations left at
row `s`. -/
def rowLoop (np : NumPut) (field : Field) (array : Option ArrowArray) (nItem : Nat) :
    Nat → Nat → List String × ListView → Option (List String × ListView)
  | 0, _, st => some st
  | todo + 1, s, (stored, hlistView) =>
      match asStr np field array s with
      | none => none
      | some text =>
          let stored := stored ++ [text]
          let item : LVITEM := { pszText := text, iItem := s, iSubItem := nItem }
          let hlistView :=
            if nItem = 0 then ListView_InsertItem hlistView item
            else ListView_SetItem hlistView item
          rowLoop np field array nItem todo (s + 1) (stored, hlistView)

/-- The loop `for (auto field : schema->fields())` over one record batch, from subitem
index `nItem`. -/
def fieldLoop (np : NumPut) (rb : RecordBatch) :
    List Field → Nat → List String × ListView → Option (List String × ListView)
  | [], _, st => some st
  | field :: rest, nItem, st =>
      let array := rb.GetColumnByName field.name
      match rowLoop np field array nItem rb.num_rows 0 st with
      | none => none
      | some st => fieldLoop np rb rest (nItem + 1) st

/-- The loop `for (int record = 0; record < num_record_batches(); ++record)` with `todo`
iterations left at batch `record`. -/
def recordLoop (np : NumPut) (reader : RecordBatchFileReader) :
    Nat → Nat → List String × ListView → Option (List String × ListView)
  | 0, _, st => some st
  | todo + 1, record, st =>
      match reader.ReadRecordBatch record with
      | none => none
      | some rb =>
          match fieldLoop np rb reader.schema 0 st with
          | none => none
          | some st => recordLoop np reader todo (record + 1) st

/-- The materialization of `DoPreview`: the column loop, then the record-batch loop. -/
def materialize (np : NumPut) (reader : RecordBatchFileReader)
    (st : List String × ListView) : Option (List String × ListView) :=
  recordLoop np reader reader.num_record_batches 0 (columnLoop reader.schema 0 st)

/-- The method `RecipePreviewHandler::DoPreview()`. -/
def DoPreview (env : Env) (self : RecipePreviewHandler) :
    Option (HRESULT × RecipePreviewHandler) :=
  if self.m_hwndPreview ≠ none ∨ self.m_pPathFile = none then some (E_FAIL, self)
  else
    match self.m_pPathFile with
    | none => some (E_FAIL, self)
    | some path =>
    let uri := env.CW2A path
    match env.FileSystemFromUriOrPath uri with
    | none => some (E_FAIL, self)
    | some fs =>
    match env.OpenInputFile fs uri with
    | none => some (E_FAIL, self)
    | some input =>
    match env.Open input with
    | none => some (E_FAIL, self)
    | some reader =>
    if env.CreateDialog self.m_hwndParent = false then
      some (HRESULT_FROM_WIN32 env.GetLastError, { self with m_hwndPreview := none })
    else
      let dlg := PreviewDialog.created self.m_hwndParent
      let rc := self.m_rcParent
      let dlg := { dlg with size := (RECTWIDTH rc, RECTHEIGHT rc) }
      let dlg := { dlg with IDC_STATIC_TITLE := path }
      let dlg := { dlg with listSize :=
        (wrapInt32 (wrapInt32 (rc.right - rc.left) - CorrectWidth),
         wrapInt32 (wrapInt32 (rc.bottom - rc.top) - CorrectHeight)) }
      match materialize env.numPut reader (self.stored, dlg.IDC_LIST_DATA) with
      | none => none
      | some (stored, hlistView) =>
      let dlg := { dlg with IDC_LIST_DATA := hlistView }
      let cols := decimalText (reader.schema.length : Nat)
      match reader.CountRows with
      | none => none
      | some count =>
      let rows := decimalText (count : Nat)
      let stored := stored ++ [c_str cols]
      let dlg := { dlg with IDC_STATIC_COLS := c_str cols }
      let stored := stored ++ [c_str rows]
      let dlg := { dlg with IDC_STATIC_ROWS := c_str rows }
      let dlg := { dlg with shown := true }
      some (S_OK, { self with m_hwndPreview := some dlg, stored := stored })

/-- The method `RecipePreviewHandler::Unload()`. -/
def Unload (self : RecipePreviewHandler) : HRESULT × RecipePreviewHandler :=
  let self := if self.m_pPathFile ≠ none then { self with m_pPathFile := none } else self
  let self := if self.m_hwndPreview ≠ none then { self with m_hwndPreview := none } else self
  (S_OK, { self with stored := [] })

/-! ## Vocabulary of the properties -/

/-- The stringified value of the batch's column at POSITION `c`, at row `r`, for the
schema field at position `c`. -/
def cellValue (np : NumPut) (schema : List Field) (rb : RecordBatch) (r c : Nat) :
    Option String :=
  match schema[c]? with
  | some field => asStr np field rb.columns[c]? r
  | none => none

/-- Every column has the type of its schema field and `n` values. -/
def columnsMatch (n : Nat) : List Field → List ArrowArray → Bool
  | [], [] => true
  | f :: fs, a :: as => decide (a.type_id = f.type) && decide (a.length = n) && columnsMatch n fs as
  | _, _ => false

/-- A record batch as the reader hands it out for a file with this schema: it carries the
file's schema, and its columns have the fields' types and `num_rows` values each. -/
def RecordBatch.WellFormed (schema : List Field) (rb : RecordBatch) : Prop :=
  rb.schema = schema ∧ columnsMatch rb.num_rows schema rb.columns = true

instance (schema : List Field) (rb : RecordBatch) : Decidable (rb.WellFormed schema) := by
  unfold RecordBatch.WellFormed; infer_instance

/-! ## Vocabulary of the proofs -/

/-- Sending a sequence of messages, first to last. -/
def ListView.sendAll (lv : ListView) (msgs : List LVM) : ListView :=
  msgs.foldl ListView.send lv

/-- The item message of the row loop for subitem `c`, row `r` and text `t`. -/
def itemMsg (c r : Nat) (t : String) : LVM :=
  if c = 0 then .INSERTITEM { iItem := r, iSubItem := c, pszText := t }
  else .SETITEM { iItem := r, iSubItem := c, pszText := t }

/-- The item messages of one pass of the field loop over `n` rows, for the subitems
`c0, ..., c0 + k - 1`, with text `T c r` for subitem `c` and row `r`. -/
def passMsgs (T : Nat → Nat → String) (n c0 k : Nat) : List LVM :=
  (List.range' c0 k).flatMap (fun c => (List.range' 0 n).map (fun r => itemMsg c r (T c r)))

/-- The texts one pass of the field loop stores. -/
def passTexts (T : Nat → Nat → String) (n c0 k : Nat) : List String :=
  (List.range' c0 k).flatMap (fun c => (List.range' 0 n).map (fun r => T c r))

/-- The rows of texts of one pass: row `r` holds `T c r` for the subitems below `k`. -/
def passRows (T : Nat → Nat → String) (n k : Nat) : List (List String) :=
  (List.range n).map (fun r => (List.range k).map (fun c => T c r))

/-- The text of `cellValue`, the empty text where it has none. -/
def cellText (np : NumPut) (schema : List Field) (rb : RecordBatch) (r c : Nat) : String :=
  (cellValue np schema rb r c).getD ""

/-- The item messages `DoPreview` sends for one record batch when every column is found
by its field's position. -/
def batchMsgs (np : NumPut) (schema : List Field) (rb : RecordBatch) : List LVM :=
  passMsgs (fun c r => cellText np schema rb r c) rb.num_rows 0 schema.length

/-- The cell texts `DoPreview` stores for one record batch. -/
def batchTexts (np : NumPut) (schema : List Field) (rb : RecordBatch) : List String :=
  passTexts (fun c r => cellText np schema rb r c) rb.num_rows 0 schema.length

/-- The rows of one record batch as texts: row `r` holds the text of every column at
`r`, in schema order. -/
def batchRows (np : NumPut) (schema : List Field) (rb : RecordBatch) : List (List String) :=
  passRows (fun c r => cellText np schema rb r c) rb.num_rows schema.length

/-- The header text of each field, in schema order. -/
def headerTexts (fields : List Field) : List String :=
  fields.map (fun f => c_str (c_str f.name))

/-- The header insertions of the column loop from column index `c0`: index and
`LVCOLUMN` for each field. -/
def headerInserts (c0 : Nat) (fields : List Field) : List (Nat × LVCOLUMN) :=
  (fields.enumFrom c0).map (fun p =>
    (p.1, { fmt := LVCFMT_RIGHT, cx := 100, pszText := c_str (c_str p.2.name), iSubItem := p.1 }))

/-- The messages of the column loop from column index `c0`. -/
def columnMsgs (c0 : Nat) (fields : List Field) : List LVM :=
  (headerInserts c0 fields).flatMap (fun p =>
    [LVM.INSERTCOLUMN p.1 p.2, LVM.SETCOLUMNWIDTH p.1 LVSCW_AUTOSIZE_USEHEADER])

/-- How many of the cell writes the control received address row `r`, column `c`. -/
def ListView.writeCount (lv : ListView) (r c : Nat) : Nat :=
  lv.cellWrites.countP (fun w => decide (w.1 = r ∧ w.2.1 = c))

/-! ## Sample inputs -/

/-- A sample `num_put` facet for the concrete evaluations. -/
def sampleNumPut : NumPut :=
  { putFloat := fun _ => "0", putDouble := fun _ => "0" }

/-- A schema of two distinctly named fields. -/
def sampleSchema : List Field :=
  [{ name := "id", type := .INT32 }, { name := "name", type := .STRING }]

/-- A first batch of three rows. -/
def sampleBatch1 : RecordBatch :=
  { schema := sampleSchema, num_rows := 3,
    columns := [.numeric .Int32Array [1, 2, 3], .StringArray ["a", "b", "c"]] }

/-- A second batch of three rows. -/
def sampleBatch2 : RecordBatch :=
  { schema := sampleSchema, num_rows := 3,
    columns := [.numeric .Int32Array [4, 5, -6], .StringArray ["d", "e", "f"]] }

/-- A file of two batches with three rows each. -/
def sampleReader : RecordBatchFileReader :=
  { schema := sampleSchema, batches := [sampleBatch1, sampleBatch2] }

/-- A world in which the path `missing.feather` resolves to nothing and every other path
opens as `sampleReader`. -/
def sampleEnv : Env :=
  { CW2A := fun path => path,
    FileSystemFromUriOrPath := fun uri => if uri = "missing.feather" then none else some 0,
    OpenInputFile := fun _ _ => some 0,
    Open := fun _ => some sampleReader,
    CreateDialog := fun _ => true,
    GetLastError := 0,
    numPut := sampleNumPut }

/-- A handler as its constructor leaves it, with a parent window and rectangle set. -/
def sampleIdle : RecipePreviewHandler :=
  { m_cRef := 1, m_pPathFile := none, m_hwndParent := some 1,
    m_rcParent := { left := 0, top := 0, right := 400, bottom := 300 },
    m_hwndPreview := none, m_punkSite := none, stored := [] }

/-- A handler initialized with the path of a readable file. -/
def sampleInitialized : RecipePreviewHandler :=
  { sampleIdle with m_pPathFile := some "data.feather" }

/-- A handler initialized with a path that does not resolve. -/
def sampleMissing : RecipePreviewHandler :=
  { sampleIdle with m_pPathFile := some "missing.feather" }

/-- A handler whose preview is showing. -/
def samplePreviewing : RecipePreviewHandler :=
  { sampleInitialized with
      m_hwndPreview := some { PreviewDialog.created (some 1) with shown := true },
      stored := ["id", "name"] }

/-- A schema in which two fields share the name `a`. -/
def dupSchema : List Field :=
  [{ name := "a", type := .INT32 }, { name := "a", type := .INT32 }]

/-- A batch of one row for `dupSchema` whose two columns hold different data. -/
def dupBatch : RecordBatch :=
  { schema := dupSchema, num_rows := 1,
    columns := [.numeric .Int32Array [1], .numeric .Int32Array [2]] }

/-! ## Decimal text -/

theorem digitChar_spec (d : Nat) (h : d < 10) :
    (Nat.digitChar d).isDigit = true ∧ (Nat.digitChar d).toNat - 48 = d := by
  interval_cases d <;> decide

theorem toDigitsCore_digits (fuel : Nat) : ∀ (n : Nat) (acc : List Char),
    (∀ ch ∈ acc, ch.isDigit = true) → ∀ ch ∈ Nat.toDigitsCore 10 fuel n acc, ch.isDigit = true := by
  induction fuel with
  | zero => intro n acc h; simpa [Nat.toDigitsCore] using h
  | succ fuel ih =>
    intro n acc h
    have hd := (digitChar_spec (n % 10) (Nat.mod_lt _ (by decide))).1
    simp only [Nat.toDigitsCore]
    split
    · intro ch hch
      rcases List.mem_cons.1 hch with rfl | hch
      · exact hd
      · exact h ch hch
    · apply ih
      intro ch hch
      rcases List.mem_cons.1 hch with rfl | hch
      · exact hd
      · exact h ch hch

theorem toDigits_digits (n : Nat) : ∀ ch ∈ Nat.toDigits 10 n, ch.isDigit = true :=
  toDigitsCore_digits (n + 1) n [] (by simp)

theorem toDigitsCore_ne_nil (fuel n : Nat) (acc : List Char) (hf : 0 < fuel) :
    Nat.toDigitsCore 10 fuel n acc ≠ [] := by
  induction fuel generalizing n acc with
  | zero => omega
  | succ fuel ih =>
    simp only [Nat.toDigitsCore]
    split
    · simp
    · cases fuel with
      | zero => simp [Nat.toDigitsCore]
      | succ f => exact ih _ _ (by omega)

theorem toDigitsCore_value (fuel : Nat) : ∀ (n : Nat) (acc : List Char), n < fuel →
    (Nat.toDigitsCore 10 fuel n acc).foldl (fun a ch => 10 * a + (ch.toNat - 48)) 0
      = acc.foldl (fun a ch => 10 * a + (ch.toNat - 48)) n := by
  induction fuel with
  | zero => intro n acc h; omega
  | succ fuel ih =>
    intro n acc h
    have hd := (digitChar_spec (n % 10) (Nat.mod_lt _ (by decide))).2
    simp only [Nat.toDigitsCore]
    split
    · rename_i h0
      have h1 : n % 10 = n := by omega
      rw [List.foldl_cons, Nat.mul_zero, Nat.zero_add, hd, h1]
    · rename_i h0
      rw [ih _ _ (by omega)]
      simp only [List.foldl_cons, hd]
      congr 1
      omega

theorem toDigits_ne_nul (n : Nat) : ∀ ch ∈ Nat.toDigits 10 n, ch ≠ Char.ofNat 0 := by
  intro ch hch h0
  have h1 := toDigits_digits n ch hch
  rw [h0] at h1
  exact absurd h1 (by decide)

theorem c_str_of_no_nul (cs : List Char) (h : ∀ ch ∈ cs, ch ≠ Char.ofNat 0) :
    c_str (String.mk cs) = String.mk cs := by
  unfold c_str
  congr 1
  rw [List.takeWhile_eq_self_iff]
  intro ch hch
  simpa using h ch hch

theorem c_str_decimalText (v : Int) : c_str (decimalText v) = decimalText v := by
  unfold decimalText
  split
  · apply c_str_of_no_nul
    intro ch hch
    rcases List.mem_cons.1 hch with rfl | hch
    · decide
    · exact toDigits_ne_nul _ ch hch
  · exact c_str_of_no_nul _ (toDigits_ne_nul _)

theorem parseDigits_toDigits (n : Nat) : parseDigits (Nat.toDigits 10 n) = some n := by
  unfold parseDigits
  have h1 : Nat.toDigits 10 n ≠ [] := toDigitsCore_ne_nil _ _ _ (by omega)
  have h2 : (Nat.toDigits 10 n).all Char.isDigit = true := by
    rw [List.all_eq_true]
    exact toDigits_digits n
  rw [if_pos ⟨h1, h2⟩]
  have h3 := toDigitsCore_value (n + 1) n [] (by omega)
  simp only [List.foldl_nil] at h3
  exact congrArg some h3

theorem toDigits_head_ne_minus (n : Nat) (cs : List Char) :
    Nat.toDigits 10 n ≠ '-' :: cs := by
  intro h
  have h1 := toDigits_digits n '-' (by rw [h]; simp)
  exact absurd h1 (by decide)

theorem parseDecimal_decimalText (v : Int) : parseDecimal (decimalText v) = some v := by
  unfold decimalText
  split
  · rename_i hneg
    have h1 : (v.natAbs : Int) = -v := Int.ofNat_natAbs_of_nonpos (le_of_lt hneg)
    simp only [parseDecimal, parseDigits_toDigits, h1, neg_neg]
  · rename_i hpos
    unfold parseDecimal
    split
    · rename_i cs heq
      exact absurd heq (toDigits_head_ne_minus _ _)
    · have h1 : (v.natAbs : Int) = v := Int.natAbs_of_nonneg (not_lt.1 hpos)
      simp only [parseDigits_toDigits, h1]

/-! ### List helpers -/

theorem insertAt_length_append {α : Type} (pre old : List α) (x : α) :
    insertAt (pre ++ old) pre.length x = pre ++ x :: old := by
  induction pre with
  | nil => cases old <;> simp [insertAt]
  | cons y ys ih => simp [insertAt, ih]

theorem setSubItemText_length (xs : List String) (t : String) :
    setSubItemText xs xs.length t = xs ++ [t] := by
  induction xs with
  | nil => simp [setSubItemText]
  | cons x xs ih => simp [setSubItemText, ih]

theorem setItemText_length_append (pre post : List (List String)) (row : List String)
    (c : Nat) (t : String) :
    setItemText (pre ++ row :: post) pre.length c t = pre ++ setSubItemText row c t :: post := by
  induction pre with
  | nil => simp [setItemText]
  | cons y ys ih => simp [setItemText, ih]

/-! ### Messages and the log -/

theorem sendAll_nil (lv : ListView) : lv.sendAll [] = lv := rfl

theorem sendAll_cons (lv : ListView) (m : LVM) (ms : List LVM) :
    lv.sendAll (m :: ms) = (lv.send m).sendAll ms := rfl

theorem sendAll_append (lv : ListView) (ms ms' : List LVM) :
    lv.sendAll (ms ++ ms') = (lv.sendAll ms).sendAll ms' := by
  simp [ListView.sendAll, List.foldl_append]

theorem send_received (lv : ListView) (m : LVM) : (lv.send m).received = lv.received ++ [m] := by
  cases m <;> rfl

theorem sendAll_received (lv : ListView) (ms : List LVM) :
    (lv.sendAll ms).received = lv.received ++ ms := by
  induction ms generalizing lv with
  | nil => simp [sendAll_nil]
  | cons m ms ih => simp [sendAll_cons, ih, send_received]

theorem send_itemMsg_columns (lv : ListView) (c r : Nat) (t : String) :
    (lv.send (itemMsg c r t)).columns = lv.columns := by
  unfold itemMsg; split <;> rfl

theorem sendAll_passMsgs_columns (T : Nat → Nat → String) (n : Nat) (k c0 : Nat) (lv : ListView) :
    (lv.sendAll (passMsgs T n c0 k)).columns = lv.columns := by
  unfold passMsgs
  generalize (List.range' c0 k) = cs
  induction cs generalizing lv with
  | nil => rfl
  | cons c cs ih =>
    rw [List.flatMap_cons, sendAll_append, ih]
    generalize (List.range' 0 n) = rs
    induction rs generalizing lv with
    | nil => rfl
    | cons r rs ih2 => rw [List.map_cons, sendAll_cons, ih2, send_itemMsg_columns]

/-! ### The loops as message sequences -/

theorem rowLoop_eq (np : NumPut) (field : Field) (array : Option ArrowArray) (nItem : Nat)
    (g : Nat → String) :
    ∀ (todo s : Nat) (stored : List String) (lv : ListView),
      (∀ r, s ≤ r → r < s + todo → asStr np field array r = some (g r)) →
      rowLoop np field array nItem todo s (stored, lv)
        = some (stored ++ (List.range' s todo).map g,
                lv.sendAll ((List.range' s todo).map (fun r => itemMsg nItem r (g r)))) := by
  intro todo
  induction todo with
  | zero => intro s stored lv _; simp [rowLoop, sendAll_nil]
  | succ todo ih =>
    intro s stored lv h
    have h0 := h s (le_refl _) (by omega)
    simp only [rowLoop, h0]
    rw [ih (s + 1) _ _ (fun r h1 h2 => h r (by omega) (by omega))]
    simp only [List.range'_succ, List.map_cons, sendAll_cons, List.append_assoc,
      List.singleton_append]
    congr 2
    unfold itemMsg ListView_InsertItem ListView_SetItem
    split <;> rfl

theorem fieldLoop_eq (np : NumPut) (rb : RecordBatch) (T : Nat → Nat → String) :
    ∀ (fields : List Field) (c0 : Nat) (stored : List String) (lv : ListView),
      (∀ j f, fields[j]? = some f → ∀ r, r < rb.num_rows →
        asStr np f (rb.GetColumnByName f.name) r = some (T (c0 + j) r)) →
      fieldLoop np rb fields c0 (stored, lv)
        = some (stored ++ passTexts T rb.num_rows c0 fields.length,
                lv.sendAll (passMsgs T rb.num_rows c0 fields.length)) := by
  intro fields
  induction fields with
  | nil => intro c0 stored lv _; simp [fieldLoop, passTexts, passMsgs, sendAll_nil]
  | cons f fs ih =>
    intro c0 stored lv h
    have hrow := rowLoop_eq np f (rb.GetColumnByName f.name) c0 (T c0) rb.num_rows 0 stored lv
      (fun r _ h2 => by simpa using h 0 f (by simp) r (by omega))
    simp only [fieldLoop, hrow]
    rw [ih (c0 + 1) _ _ (fun j f' hj r hr => by
      have := h (j + 1) f' (by simpa using hj) r hr
      rwa [show c0 + (j + 1) = c0 + 1 + j by omega] at this)]
    simp only [passTexts, passMsgs, List.length_cons, List.range'_succ, List.flatMap_cons,
      sendAll_append, List.append_assoc]

/-! ### The items after the messages of one batch -/

theorem send_insert_items (lv : ListView) (r : Nat) (t : String) :
    (lv.send (itemMsg 0 r t)).items = insertAt lv.items r [t] := by
  simp [itemMsg, ListView.send]

theorem send_set_items (lv : ListView) (c r : Nat) (t : String) (hc : c ≠ 0) :
    (lv.send (itemMsg c r t)).items = setItemText lv.items r c t := by
  simp [itemMsg, ListView.send, hc]

theorem insertPhase_items (g : Nat → String) (rest : List (List String)) :
    ∀ (todo s : Nat) (lv : ListView),
      lv.items = (List.range s).map (fun r => [g r]) ++ rest →
      (lv.sendAll ((List.range' s todo).map (fun r => itemMsg 0 r (g r)))).items
        = (List.range (s + todo)).map (fun r => [g r]) ++ rest := by
  intro todo
  induction todo with
  | zero => intro s lv h; simpa [sendAll_nil] using h
  | succ todo ih =>
    intro s lv h
    rw [List.range'_succ, List.map_cons, sendAll_cons, ih (s + 1)]
    · rw [show s + 1 + todo = s + (todo + 1) by omega]
    · rw [send_insert_items, h]
      have h1 := insertAt_length_append ((List.range s).map (fun r => [g r])) rest [g s]
      rw [List.length_map, List.length_range] at h1
      rw [h1, List.range_succ, List.map_append]
      simp

theorem setPhase_items (c : Nat) (hc : c ≠ 0) (g : Nat → String)
    (rowOld rowNew : Nat → List String) (rest : List (List String))
    (hrow : ∀ r, setSubItemText (rowOld r) c (g r) = rowNew r) :
    ∀ (todo s : Nat) (lv : ListView),
      lv.items = (List.range s).map rowNew ++ ((List.range' s todo).map rowOld ++ rest) →
      (lv.sendAll ((List.range' s todo).map (fun r => itemMsg c r (g r)))).items
        = (List.range (s + todo)).map rowNew ++ rest := by
  intro todo
  induction todo with
  | zero => intro s lv h; simpa [sendAll_nil] using h
  | succ todo ih =>
    intro s lv h
    rw [List.range'_succ, List.map_cons, sendAll_cons, ih (s + 1)]
    · rw [show s + 1 + todo = s + (todo + 1) by omega]
    · rw [send_set_items _ _ _ _ hc, h, List.range'_succ, List.map_cons, List.cons_append]
      have h1 := setItemText_length_append ((List.range s).map rowNew)
        ((List.range' (s + 1) todo).map rowOld ++ rest) (rowOld s) c (g s)
      rw [List.length_map, List.length_range] at h1
      rw [h1, hrow, List.range_succ, List.map_append]
      simp

theorem passMsgs_succ (T : Nat → Nat → String) (n k : Nat) :
    passMsgs T n 0 (k + 1)
      = passMsgs T n 0 k ++ (List.range' 0 n).map (fun r => itemMsg k r (T k r)) := by
  simp [passMsgs, List.range'_1_concat, List.flatMap_append]

theorem passMsgs_items (T : Nat → Nat → String) (n : Nat) (lv : ListView) :
    ∀ k, (lv.sendAll (passMsgs T n 0 (k + 1))).items = passRows T n (k + 1) ++ lv.items := by
  intro k
  induction k with
  | zero =>
    rw [passMsgs_succ]
    have h := insertPhase_items (T 0) lv.items n 0 lv (by simp)
    simpa [passMsgs, sendAll_nil, passRows] using h
  | succ k ih =>
    rw [passMsgs_succ, sendAll_append]
    have h := setPhase_items (k + 1) (by omega) (T (k + 1))
      (fun r => (List.range (k + 1)).map (fun c => T c r))
      (fun r => (List.range (k + 1 + 1)).map (fun c => T c r)) lv.items
      (by
        intro r
        have h1 := setSubItemText_length ((List.range (k + 1)).map (fun c => T c r)) (T (k + 1) r)
        rw [List.length_map, List.length_range] at h1
        simp only [h1, List.range_succ (k + 1), List.map_append, List.map_cons, List.map_nil])
      n 0 (lv.sendAll (passMsgs T n 0 (k + 1)))
      (by rw [ih]; simp [passRows, List.range_eq_range'])
    simpa [passRows] using h

/-! ### Well-formed batches -/

theorem columnsMatch_getElem? (n : Nat) :
    ∀ (fields : List Field) (cols : List ArrowArray), columnsMatch n fields cols = true →
      ∀ (c : Nat) (f : Field), fields[c]? = some f →
        ∃ a : ArrowArray, cols[c]? = some a ∧ a.type_id = f.type ∧ a.length = n := by
  intro fields
  induction fields with
  | nil => intro cols _ c f h; simp at h
  | cons f0 fs ih =>
    intro cols hm c f h
    cases cols with
    | nil => simp [columnsMatch] at hm
    | cons a0 as =>
      simp only [columnsMatch, Bool.and_eq_true, decide_eq_true_eq] at hm
      cases c with
      | zero =>
        simp only [List.getElem?_cons_zero, Option.some.injEq] at h
        subst h
        exact ⟨a0, by simp, hm.1.1, hm.1.2⟩
      | succ c =>
        simp only [List.getElem?_cons_succ] at h
        obtain ⟨a, h1, h2⟩ := ih as hm.2 c f h
        exact ⟨a, by simpa using h1, h2⟩

theorem asStr_isSome_of_match (np : NumPut) (f : Field) (a : ArrowArray) (r : Nat)
    (ht : a.type_id = f.type) (hr : r < a.length) : ∃ t, asStr np f (some a) r = some t := by
  cases a with
  | numeric cls values =>
    have hv : values[r]? = some values[r] := List.getElem?_eq_getElem hr
    cases cls <;> simp only [ArrowArray.type_id, ArrayClass.type_id] at ht <;>
      simp [asStr, ← ht, Convert, Value, hv]
  | StringArray values =>
    have hv : values[r]? = some values[r] := List.getElem?_eq_getElem hr
    simp only [ArrowArray.type_id] at ht
    simp [asStr, ← ht, ConvertString, GetString, hv]
  | other tag length =>
    simp only [ArrowArray.type_id] at ht
    simp [asStr, ← ht]

theorem getFieldIndex_of_nodup (schema : List Field) (hnd : (schema.map Field.name).Nodup)
    (c : Nat) (f : Field) (h : schema[c]? = some f) : GetFieldIndex schema f.name = some c := by
  have hc : c < schema.length := by
    by_contra hlt
    rw [List.getElem?_eq_none (not_lt.1 hlt)] at h
    exact absurd h (by simp)
  have hc' : c < (schema.map Field.name).length := by simpa using hc
  have hget : (schema.map Field.name)[c] = f.name := by
    rw [List.getElem?_eq_getElem hc] at h
    simp only [Option.some.injEq] at h
    simp [h]
  have hmem : f.name ∈ schema.map Field.name := hget ▸ List.getElem_mem hc'
  have hidx := List.indexOf_getElem hnd c hc'
  rw [hget] at hidx
  simp [GetFieldIndex, List.count_eq_one_of_mem hnd hmem, hidx]

theorem asStr_wellFormed (np : NumPut) (schema : List Field) (rb : RecordBatch)
    (hnd : (schema.map Field.name).Nodup) (hwf : rb.WellFormed schema)
    (c : Nat) (f : Field) (h : schema[c]? = some f) (r : Nat) (hr : r < rb.num_rows) :
    asStr np f (rb.GetColumnByName f.name) r = some (cellText np schema rb r c)
      ∧ cellValue np schema rb r c = some (cellText np schema rb r c) := by
  obtain ⟨hs, hm⟩ := hwf
  obtain ⟨a, ha, hty, hlen⟩ := columnsMatch_getElem? _ _ _ hm c f h
  obtain ⟨t, ht⟩ := asStr_isSome_of_match np f a r hty (by omega)
  have hcol : rb.GetColumnByName f.name = rb.columns[c]? := by
    simp [RecordBatch.GetColumnByName, hs, getFieldIndex_of_nodup schema hnd c f h]
  have hval : cellValue np schema rb r c = some t := by
    simp [cellValue, h, ha, ht]
  simp [hcol, ha, ht, cellText, hval]

/-! ### The loops of `DoPreview` on a well-formed file -/

theorem fieldLoop_wellFormed (np : NumPut) (schema : List Field) (rb : RecordBatch)
    (hnd : (schema.map Field.name).Nodup) (hwf : rb.WellFormed schema)
    (stored : List String) (lv : ListView) :
    fieldLoop np rb schema 0 (stored, lv)
      = some (stored ++ batchTexts np schema rb, lv.sendAll (batchMsgs np schema rb)) := by
  have h := fieldLoop_eq np rb (fun c r => cellText np schema rb r c) schema 0 stored lv
    (fun j f hj r hr => by
      simpa using (asStr_wellFormed np schema rb hnd hwf j f hj r hr).1)
  simpa [batchTexts, batchMsgs] using h

theorem recordLoop_eq (np : NumPut) (reader : RecordBatchFileReader)
    (hnd : (reader.schema.map Field.name).Nodup)
    (hwf : ∀ rb ∈ reader.batches, rb.WellFormed reader.schema) :
    ∀ (todo record : Nat) (stored : List String) (lv : ListView),
      record + todo ≤ reader.batches.length →
      recordLoop np reader todo record (stored, lv)
        = some (stored ++ ((reader.batches.drop record).take todo).flatMap
                  (batchTexts np reader.schema),
                lv.sendAll (((reader.batches.drop record).take todo).flatMap
                  (batchMsgs np reader.schema))) := by
  intro todo
  induction todo with
  | zero => intro record stored lv _; simp [recordLoop, sendAll_nil]
  | succ todo ih =>
    intro record stored lv h
    have hlt : record < reader.batches.length := by omega
    have hread : reader.ReadRecordBatch record = some reader.batches[record] := by
      simp [RecordBatchFileReader.ReadRecordBatch, List.getElem?_eq_getElem hlt]
    have hrb := hwf _ (List.getElem_mem hlt)
    simp only [recordLoop, hread, fieldLoop_wellFormed np _ _ hnd hrb]
    rw [ih (record + 1) _ _ (by omega), List.drop_eq_getElem_cons hlt]
    simp only [List.take_succ_cons, List.flatMap_cons, sendAll_append, List.append_assoc]

theorem columnLoop_eq : ∀ (fields : List Field) (c0 : Nat) (stored : List String)
    (lv : ListView),
    columnLoop fields c0 (stored, lv)
      = (stored ++ headerTexts fields, lv.sendAll (columnMsgs c0 fields)) := by
  intro fields
  induction fields with
  | nil => intro c0 stored lv; simp [columnLoop, headerTexts, columnMsgs, headerInserts, sendAll_nil]
  | cons f fs ih =>
    intro c0 stored lv
    simp only [columnLoop, ih]
    simp [headerTexts, columnMsgs, headerInserts, List.enumFrom_cons, sendAll_cons,
      ListView_InsertColumn, ListView_SetColumnWidth]

theorem materialize_eq (np : NumPut) (reader : RecordBatchFileReader)
    (hnd : (reader.schema.map Field.name).Nodup)
    (hwf : ∀ rb ∈ reader.batches, rb.WellFormed reader.schema)
    (stored : List String) (lv : ListView) :
    materialize np reader (stored, lv)
      = some (stored ++ headerTexts reader.schema
                ++ reader.batches.flatMap (batchTexts np reader.schema),
              (lv.sendAll (columnMsgs 0 reader.schema)).sendAll
                (reader.batches.flatMap (batchMsgs np reader.schema))) := by
  unfold materialize
  rw [columnLoop_eq, recordLoop_eq np reader hnd hwf _ _ _ _ (by
    simp [RecordBatchFileReader.num_record_batches])]
  simp [RecordBatchFileReader.num_record_batches]

/-! ### The control after the messages -/

theorem sendAll_columnMsgs_items : ∀ (fields : List Field) (c0 : Nat) (lv : ListView),
    (lv.sendAll (columnMsgs c0 fields)).items = lv.items := by
  intro fields
  induction fields with
  | nil => intro c0 lv; rfl
  | cons f fs ih =>
    intro c0 lv
    simp only [columnMsgs, headerInserts, List.enumFrom_cons, List.map_cons, List.flatMap_cons,
      List.cons_append, List.nil_append, sendAll_cons] at ih ⊢
    rw [ih]
    rfl

theorem sendAll_columnMsgs_columns : ∀ (fields : List Field) (lv : ListView),
    (lv.sendAll (columnMsgs lv.columns.length fields)).columns
      = lv.columns ++ headerTexts fields := by
  intro fields
  induction fields with
  | nil => intro lv; simp [columnMsgs, headerInserts, headerTexts, sendAll_nil]
  | cons f fs ih =>
    intro lv
    have h1 : ((lv.send (.INSERTCOLUMN lv.columns.length
        { fmt := LVCFMT_RIGHT, cx := 100, pszText := c_str (c_str f.name),
          iSubItem := lv.columns.length })).send
        (.SETCOLUMNWIDTH lv.columns.length LVSCW_AUTOSIZE_USEHEADER)).columns
        = lv.columns ++ [c_str (c_str f.name)] := by
      have h2 := insertAt_length_append lv.columns [] (c_str (c_str f.name))
      simp only [List.append_nil] at h2
      simp [ListView.send, h2]
    have h3 := ih ((lv.send (.INSERTCOLUMN lv.columns.length
        { fmt := LVCFMT_RIGHT, cx := 100, pszText := c_str (c_str f.name),
          iSubItem := lv.columns.length })).send
        (.SETCOLUMNWIDTH lv.columns.length LVSCW_AUTOSIZE_USEHEADER))
    rw [h1] at h3
    simp only [List.length_append, List.length_singleton] at h3
    simp only [columnMsgs, headerInserts, List.enumFrom_cons, List.map_cons, List.flatMap_cons,
      List.cons_append, List.nil_append, sendAll_cons] at h3 ⊢
    rw [h3]
    simp [headerTexts]

theorem sendAll_batchMsgs_items (np : NumPut) (schema : List Field) (hk : schema ≠ [])
    (rb : RecordBatch) (lv : ListView) :
    (lv.sendAll (batchMsgs np schema rb)).items = batchRows np schema rb ++ lv.items := by
  obtain ⟨k, hk'⟩ : ∃ k, schema.length = k + 1 :=
    Nat.exists_eq_succ_of_ne_zero (by simpa using hk)
  unfold batchMsgs batchRows
  rw [hk']
  exact passMsgs_items _ _ lv k

theorem sendAll_batches_items (np : NumPut) (schema : List Field) (hk : schema ≠ []) :
    ∀ (batches : List RecordBatch) (lv : ListView),
      (lv.sendAll (batches.flatMap (batchMsgs np schema))).items
        = batches.reverse.flatMap (batchRows np schema) ++ lv.items := by
  intro batches
  induction batches with
  | nil => intro lv; rfl
  | cons rb rest ih =>
    intro lv
    rw [List.flatMap_cons, sendAll_append, ih, sendAll_batchMsgs_items np schema hk]
    simp [List.flatMap_append]

theorem sendAll_batches_columns (np : NumPut) (schema : List Field) :
    ∀ (batches : List RecordBatch) (lv : ListView),
      (lv.sendAll (batches.flatMap (batchMsgs np schema))).columns = lv.columns := by
  intro batches
  induction batches with
  | nil => intro lv; rfl
  | cons rb rest ih =>
    intro lv
    rw [List.flatMap_cons, sendAll_append, ih]
    exact sendAll_passMsgs_columns _ _ _ _ lv

/-! ### The log of messages -/

theorem cellWrite_itemMsg (c r : Nat) (t : String) : (itemMsg c r t).cellWrite = some (r, c, t) := by
  unfold itemMsg; split <;> rfl

theorem filterMap_cellWrite_passMsgs (T : Nat → Nat → String) (n c0 k : Nat) :
    (passMsgs T n c0 k).filterMap LVM.cellWrite
      = (List.range' c0 k).flatMap (fun c => (List.range n).map (fun r => (r, c, T c r))) := by
  unfold passMsgs
  rw [List.filterMap_flatMap]
  congr 1
  funext c
  rw [List.filterMap_map, List.range_eq_range']
  induction (List.range' 0 n) with
  | nil => rfl
  | cons r rs ih => simp [List.filterMap_cons, cellWrite_itemMsg, ih]

theorem filterMap_cellWrite_columnMsgs (c0 : Nat) (fields : List Field) :
    (columnMsgs c0 fields).filterMap LVM.cellWrite = [] := by
  unfold columnMsgs
  induction (headerInserts c0 fields) with
  | nil => rfl
  | cons p ps ih => simpa [List.flatMap_cons, LVM.cellWrite] using ih

theorem filterMap_columnInsert_columnMsgs (c0 : Nat) (fields : List Field) :
    (columnMsgs c0 fields).filterMap LVM.columnInsert = headerInserts c0 fields := by
  unfold columnMsgs
  induction (headerInserts c0 fields) with
  | nil => rfl
  | cons p ps ih => simpa [List.flatMap_cons, LVM.columnInsert] using ih

theorem filterMap_columnInsert_passMsgs (T : Nat → Nat → String) (n c0 k : Nat) :
    (passMsgs T n c0 k).filterMap LVM.columnInsert = [] := by
  unfold passMsgs
  rw [List.filterMap_flatMap]
  induction (List.range' c0 k) with
  | nil => rfl
  | cons c cs ih =>
    rw [List.flatMap_cons, ih, List.append_nil, List.filterMap_map]
    induction (List.range' 0 n) with
    | nil => rfl
    | cons r rs ih2 =>
      rw [List.filterMap_cons]
      have : (LVM.columnInsert ∘ fun r => itemMsg c r (T c r)) r = none := by
        simp only [Function.comp, itemMsg]; split <;> rfl
      rw [this, ih2]

/-! ### Counting the cell writes -/

theorem gridWrites_length {α : Type} (n : Nat) (g : Nat → Nat → α) :
    ∀ cs : List Nat,
      (cs.flatMap (fun c => (List.range n).map (fun r => g c r))).length = n * cs.length := by
  intro cs
  induction cs with
  | nil => simp
  | cons c cs ih =>
    rw [List.flatMap_cons, List.length_append, ih]
    simp [Nat.mul_succ, Nat.add_comm]

theorem gridKeys_nodup (n k : Nat) :
    ((List.range k).flatMap (fun c => (List.range n).map (fun r => (r, c)))).Nodup := by
  rw [List.nodup_flatMap]
  constructor
  · intro c _
    exact (List.nodup_range n).map (fun a b h => by simpa using h)
  · refine (List.nodup_range k).imp ?_
    intro a b hab
    simp only [Function.onFun, List.disjoint_left, List.mem_map, List.mem_range, not_exists,
      not_and, forall_exists_index, and_imp]
    intro p r _ hp r' _ hp'
    rw [← hp] at hp'
    simp only [Prod.mk.injEq] at hp'
    exact hab hp'.2.symm

theorem gridKeys_count (n k r c : Nat) (hr : r < n) (hc : c < k) :
    ((List.range k).flatMap (fun c' => (List.range n).map (fun r' => (r', c')))).countP
      (fun p => decide (p.1 = r ∧ p.2 = c)) = 1 := by
  have hmem : (r, c) ∈ (List.range k).flatMap (fun c' => (List.range n).map (fun r' => (r', c'))) := by
    simp only [List.mem_flatMap, List.mem_map, List.mem_range, Prod.mk.injEq]
    exact ⟨c, hc, r, hr, rfl, rfl⟩
  have h := @List.count_eq_one_of_mem (Nat × Nat) _ (r, c) _ (gridKeys_nodup n k) hmem
  unfold List.count at h
  rw [← h]
  congr 1
  funext p
  cases p
  rename_i a b
  rw [Bool.eq_iff_iff]
  simp only [Bool.and_eq_true, decide_eq_true_eq]
  constructor
  · rintro ⟨rfl, rfl⟩
    exact decide_eq_true rfl
  · intro h1
    have h2 : (a, b) = (r, c) := of_decide_eq_true h1
    exact Prod.mk.inj h2

theorem passRows_cell (T : Nat → Nat → String) (n k r c : Nat) (hr : r < n) (hc : c < k)
    (rest : List (List String)) :
    ((passRows T n k ++ rest)[r]?).bind (fun row => row[c]?) = some (T c r) := by
  have h1 : r < (passRows T n k).length := by simpa [passRows] using hr
  rw [List.getElem?_append_left h1]
  simp [passRows, List.getElem?_map, List.getElem?_range hr, List.getElem?_range hc]

/-! ### `DoPreview` when every external call succeeds -/

theorem DoPreview_success (env : Env) (self : RecipePreviewHandler) (path : String)
    (fs input : Nat) (reader : RecordBatchFileReader) (stored : List String) (lv : ListView)
    (hpre : self.m_hwndPreview = none) (hpath : self.m_pPathFile = some path)
    (hfs : env.FileSystemFromUriOrPath (env.CW2A path) = some fs)
    (hin : env.OpenInputFile fs (env.CW2A path) = some input)
    (hrd : env.Open input = some reader)
    (hdlg : env.CreateDialog self.m_hwndParent = true)
    (hmat : materialize env.numPut reader (self.stored, ListView.empty) = some (stored, lv)) :
    DoPreview env self = some (S_OK,
      { self with
          m_hwndPreview := some
            { hwndParent := self.m_hwndParent,
              size := (RECTWIDTH self.m_rcParent, RECTHEIGHT self.m_rcParent),
              listSize :=
                (wrapInt32 (wrapInt32 (self.m_rcParent.right - self.m_rcParent.left)
                  - CorrectWidth),
                 wrapInt32 (wrapInt32 (self.m_rcParent.bottom - self.m_rcParent.top)
                  - CorrectHeight)),
              IDC_STATIC_TITLE := path,
              IDC_LIST_DATA := lv,
              IDC_STATIC_COLS := decimalText (reader.schema.length : Nat),
              IDC_STATIC_ROWS := decimalText ((reader.batches.map RecordBatch.num_rows).sum : Nat),
              shown := true },
          stored := stored ++ [decimalText (reader.schema.length : Nat),
                      decimalText ((reader.batches.map RecordBatch.num_rows).sum : Nat)] }) := by
  unfold DoPreview
  rw [if_neg (by simp [hpre, hpath])]
  simp [hpath, hfs, hin, hrd, hdlg, PreviewDialog.created, hmat,
    RecordBatchFileReader.CountRows, c_str_decimalText]

/-! ### What the loops did when they complete -/

theorem indexOf_of_count_one (a : String) :
    ∀ (l : List String) (c : Nat), l[c]? = some a → l.count a = 1 → l.indexOf a = c := by
  intro l
  induction l with
  | nil => intro c h; simp at h
  | cons x xs ih =>
    intro c h hcount
    cases c with
    | zero =>
      simp only [List.getElem?_cons_zero, Option.some.injEq] at h
      subst h
      exact List.indexOf_cons_self _ _
    | succ c =>
      simp only [List.getElem?_cons_succ] at h
      have hmem : a ∈ xs := List.getElem?_mem h
      have hpos : 0 < xs.count a := List.count_pos_iff.2 hmem
      rw [List.count_cons] at hcount
      have hne : x ≠ a := by
        intro hxa
        rw [hxa] at hcount
        simp at hcount
        omega
      have hcount' : xs.count a = 1 := by
        simpa [hne] using hcount
      rw [List.indexOf_cons_ne _ hne, ih c h hcount']

theorem asStr_null_array (np : NumPut) (f : Field) (r : Nat) (t : String)
    (h : asStr np f none r = some t) (array : Option ArrowArray) :
    asStr np f array r = some t := by
  unfold asStr at h ⊢
  split at h <;> simp_all [Convert, ConvertString, Value, GetString]

theorem asStr_byName (np : NumPut) (schema : List Field) (rb : RecordBatch)
    (hs : rb.schema = schema) (c : Nat) (f : Field) (hc : schema[c]? = some f) (r : Nat)
    (t : String) (h : asStr np f (rb.GetColumnByName f.name) r = some t) :
    cellValue np schema rb r c = some t := by
  have hname : (schema.map Field.name)[c]? = some f.name := by
    simp [List.getElem?_map, hc]
  simp only [cellValue, hc]
  unfold RecordBatch.GetColumnByName GetFieldIndex at h
  rw [hs] at h
  by_cases hcount : (schema.map Field.name).count f.name = 1
  · rw [if_pos hcount] at h
    simp only [indexOf_of_count_one _ _ c hname hcount] at h
    exact h
  · rw [if_neg hcount] at h
    exact asStr_null_array np f r t h _

theorem rowLoop_some (np : NumPut) (field : Field) (array : Option ArrowArray) (nItem : Nat) :
    ∀ (todo s : Nat) (st st' : List String × ListView),
      rowLoop np field array nItem todo s st = some st' →
      ∀ r, s ≤ r → r < s + todo → ∃ t, asStr np field array r = some t := by
  intro todo
  induction todo with
  | zero => intro s st st' _ r h1 h2; omega
  | succ todo ih =>
    intro s st st' h r h1 h2
    obtain ⟨stored, lv⟩ := st
    simp only [rowLoop] at h
    cases hs : asStr np field array s with
    | none => simp [hs] at h
    | some t =>
      simp only [hs] at h
      by_cases hrs : r = s
      · exact ⟨t, hrs ▸ hs⟩
      · exact ih (s + 1) _ st' h r (by omega) (by omega)

theorem fieldLoop_some (np : NumPut) (rb : RecordBatch) :
    ∀ (fields : List Field) (c0 : Nat) (st st' : List String × ListView),
      fieldLoop np rb fields c0 st = some st' →
      ∀ (j : Nat) (f : Field), fields[j]? = some f → ∀ r, r < rb.num_rows →
        ∃ t, asStr np f (rb.GetColumnByName f.name) r = some t := by
  intro fields
  induction fields with
  | nil => intro c0 st st' _ j f hf; simp at hf
  | cons f0 fs ih =>
    intro c0 st st' h j f hf r hr
    simp only [fieldLoop] at h
    cases hrow : rowLoop np f0 (rb.GetColumnByName f0.name) c0 rb.num_rows 0 st with
    | none => simp [hrow] at h
    | some st1 =>
      simp only [hrow] at h
      cases j with
      | zero =>
        simp only [List.getElem?_cons_zero, Option.some.injEq] at hf
        subst hf
        exact rowLoop_some np f0 _ c0 rb.num_rows 0 _ _ hrow r (by omega) (by omega)
      | succ j =>
        simp only [List.getElem?_cons_succ] at hf
        exact ih (c0 + 1) st1 st' h j f hf r hr

theorem fieldLoop_complete (np : NumPut) (schema : List Field) (rb : RecordBatch)
    (hs : rb.schema = schema) (st st' : List String × ListView)
    (h : fieldLoop np rb schema 0 st = some st') :
    st' = (st.1 ++ batchTexts np schema rb, st.2.sendAll (batchMsgs np schema rb)) := by
  obtain ⟨stored, lv⟩ := st
  have hall : ∀ j f, schema[j]? = some f → ∀ r, r < rb.num_rows →
      asStr np f (rb.GetColumnByName f.name) r
        = some ((fun c r => cellText np schema rb r c) (0 + j) r) := by
    intro j f hf r hr
    obtain ⟨t, ht⟩ := fieldLoop_some np rb schema 0 _ _ h j f hf r hr
    have hv := asStr_byName np schema rb hs j f hf r t ht
    simp [ht, cellText, hv]
  have heq := fieldLoop_eq np rb (fun c r => cellText np schema rb r c) schema 0 stored lv hall
  rw [heq] at h
  exact (Option.some.inj h).symm

theorem recordLoop_complete (np : NumPut) (reader : RecordBatchFileReader)
    (hs : ∀ rb ∈ reader.batches, rb.schema = reader.schema) :
    ∀ (todo record : Nat) (st st' : List String × ListView),
      record + todo ≤ reader.batches.length →
      recordLoop np reader todo record st = some st' →
      st' = (st.1 ++ ((reader.batches.drop record).take todo).flatMap
                (batchTexts np reader.schema),
             st.2.sendAll (((reader.batches.drop record).take todo).flatMap
                (batchMsgs np reader.schema))) := by
  intro todo
  induction todo with
  | zero =>
    intro record st st' _ h
    simp only [recordLoop, Option.some.injEq] at h
    simp [← h, sendAll_nil]
  | succ todo ih =>
    intro record st st' hle h
    have hlt : record < reader.batches.length := by omega
    have hread : reader.ReadRecordBatch record = some reader.batches[record] := by
      simp [RecordBatchFileReader.ReadRecordBatch, List.getElem?_eq_getElem hlt]
    simp only [recordLoop, hread] at h
    cases hfl : fieldLoop np reader.batches[record] reader.schema 0 st with
    | none => simp [hfl] at h
    | some st1 =>
      simp only [hfl] at h
      have h1 := fieldLoop_complete np reader.schema _ (hs _ (List.getElem_mem hlt))
        st st1 hfl
      have h2 := ih (record + 1) st1 st' (by omega) h
      rw [h2, h1, List.drop_eq_getElem_cons hlt]
      simp only [List.take_succ_cons, List.flatMap_cons, sendAll_append, List.append_assoc]

theorem materialize_complete (np : NumPut) (reader : RecordBatchFileReader)
    (hs : ∀ rb ∈ reader.batches, rb.schema = reader.schema)
    (st st' : List String × ListView) (h : materialize np reader st = some st') :
    st' = (st.1 ++ headerTexts reader.schema
              ++ reader.batches.flatMap (batchTexts np reader.schema),
           (st.2.sendAll (columnMsgs 0 reader.schema)).sendAll
              (reader.batches.flatMap (batchMsgs np reader.schema))) := by
  obtain ⟨stored, lv⟩ := st
  unfold materialize at h
  rw [columnLoop_eq] at h
  have h1 := recordLoop_complete np reader hs _ _ _ _
    (by simp [RecordBatchFileReader.num_record_batches]) h
  simpa [RecordBatchFileReader.num_record_batches] using h1

theorem recordLoop_some (np : NumPut) (reader : RecordBatchFileReader) :
    ∀ (todo record : Nat) (st st' : List String × ListView),
      recordLoop np reader todo record st = some st' →
      ∀ (i : Nat) (rb : RecordBatch), reader.batches[i]? = some rb → record ≤ i →
        i < record + todo →
        ∃ st0 st1, fieldLoop np rb reader.schema 0 st0 = some st1 := by
  intro todo
  induction todo with
  | zero => intro record st st' _ i rb _ h1 h2; omega
  | succ todo ih =>
    intro record st st' h i rb hi h1 h2
    simp only [recordLoop, RecordBatchFileReader.ReadRecordBatch] at h
    cases hread : reader.batches[record]? with
    | none => simp [hread] at h
    | some rb0 =>
      simp only [hread] at h
      cases hfl : fieldLoop np rb0 reader.schema 0 st with
      | none => simp [hfl] at h
      | some st1 =>
        simp only [hfl] at h
        by_cases hir : i = record
        · subst hir
          rw [hread] at hi
          cases hi
          exact ⟨st, st1, hfl⟩
        · exact ih (record + 1) st1 st' h i rb hi (by omega) (by omega)

theorem cellValue_of_complete (np : NumPut) (reader : RecordBatchFileReader)
    (hs : ∀ rb ∈ reader.batches, rb.schema = reader.schema)
    (st st' : List String × ListView) (h : materialize np reader st = some st')
    (rb : RecordBatch) (hrb : rb ∈ reader.batches) (r c : Nat) (hr : r < rb.num_rows)
    (hc : c < reader.schema.length) :
    cellValue np reader.schema rb r c = some (cellText np reader.schema rb r c) := by
  obtain ⟨i, hi⟩ := List.getElem?_of_mem hrb
  have hlt : i < reader.batches.length := by
    by_contra hge
    rw [List.getElem?_eq_none (not_lt.1 hge)] at hi
    exact absurd hi (by simp)
  obtain ⟨st0, st1, hfl⟩ := recordLoop_some np reader _ _ _ _ h i rb hi (Nat.zero_le _)
    (by simpa [RecordBatchFileReader.num_record_batches] using hlt)
  have hf : reader.schema[c]? = some reader.schema[c] := List.getElem?_eq_getElem hc
  obtain ⟨t, ht⟩ := fieldLoop_some np rb reader.schema 0 _ _ hfl c _ hf r hr
  have hv := asStr_byName np reader.schema rb (hs rb hrb) c _ hf r t ht
  simp [cellText, hv]

theorem DoPreview_complete (env : Env) (self : RecipePreviewHandler) (path : String)
    (fs input : Nat) (reader : RecordBatchFileReader)
    (hpre : self.m_hwndPreview = none) (hpath : self.m_pPathFile = some path)
    (hfs : env.FileSystemFromUriOrPath (env.CW2A path) = some fs)
    (hin : env.OpenInputFile fs (env.CW2A path) = some input)
    (hrd : env.Open input = some reader)
    (hdlg : env.CreateDialog self.m_hwndParent = true)
    (hr : HRESULT) (self' : RecipePreviewHandler)
    (h : DoPreview env self = some (hr, self')) :
    ∃ stored lv dlg,
      materialize env.numPut reader (self.stored, ListView.empty) = some (stored, lv)
        ∧ hr = S_OK ∧ self'.m_hwndPreview = some dlg ∧ dlg.IDC_LIST_DATA = lv
        ∧ dlg.IDC_STATIC_COLS = decimalText (reader.schema.length : Nat)
        ∧ dlg.IDC_STATIC_ROWS
            = decimalText ((reader.batches.map RecordBatch.num_rows).sum : Nat) := by
  cases hmat : materialize env.numPut reader (self.stored, ListView.empty) with
  | none =>
    unfold DoPreview at h
    rw [if_neg (by simp [hpre, hpath])] at h
    simp [hpath, hfs, hin, hrd, hdlg, PreviewDialog.created, hmat] at h
  | some st =>
    obtain ⟨stored, lv⟩ := st
    rw [DoPreview_success env self path fs input reader stored lv hpre hpath hfs hin hrd hdlg
      hmat] at h
    simp only [Option.some.injEq, Prod.mk.injEq] at h
    obtain ⟨h1, h2⟩ := h
    subst h2
    exact ⟨stored, lv, _, rfl, h1.symm, rfl, rfl, rfl, rfl⟩

/-! ## Properties of the stringifier and the session -/

/-- C1: in every session state whose preview is showing (`m_hwndPreview` non-null),
`DoPreview` returns the failure `E_FAIL` and leaves the whole state (path, preview view,
cached parent and rectangle, stored strings) exactly as it was. -/
theorem DoPreview_while_previewing (env : Env) (self : RecipePreviewHandler)
    (h : self.m_hwndPreview ≠ none) : DoPreview env self = some (E_FAIL, self) := by
  unfold DoPreview
  rw [if_pos (Or.inl h)]

/-- Witness of C1 on a session whose preview is showing. -/
theorem DoPreview_while_previewing_witness :
    samplePreviewing.m_hwndPreview ≠ none
      ∧ DoPreview sampleEnv samplePreviewing = some (E_FAIL, samplePreviewing) :=
  ⟨by decide, DoPreview_while_previewing sampleEnv samplePreviewing (by decide)⟩

/-- Counterexample to C2: `Initialize` with the empty path `""` (a non-null pointer)
returns `S_OK`, not `E_INVALIDARG`, and stores the empty path. -/
theorem Initialize_empty_path :
    Initialize sampleIdle (some "") 0 = (S_OK, { sampleIdle with m_pPathFile := some "" })
      ∧ (Initialize sampleIdle (some "") 0).1 ≠ E_INVALIDARG := by
  decide

/-- C2 as amended: in every session state `Initialize` with a null path returns
`E_INVALIDARG` (and changes nothing), and with every non-null path, the empty path
included, it returns `S_OK` with that path stored. -/
theorem Initialize_spec (self : RecipePreviewHandler) (grfMode : Nat) :
    Initialize self none grfMode = (E_INVALIDARG, self)
      ∧ ∀ path : String,
          Initialize self (some path) grfMode = (S_OK, { self with m_pPathFile := some path }) :=
  ⟨rfl, fun _ => rfl⟩

/-- C3: for every element type id that is none of UInt8, Int8, UInt16, Int16, UInt32,
Int32, UInt64, Int64, HalfFloat, Float, Double and String, and for every array (a null
one included) and every position, `asStr` returns exactly the text `-`. -/
theorem asStr_unsupported (np : NumPut) (field : Field) (array : Option ArrowArray) (pos : Nat)
    (h : field.type ∉ [TypeId.UINT8, .INT8, .UINT16, .INT16, .UINT32, .INT32, .UINT64, .INT64,
      .HALF_FLOAT, .FLOAT, .DOUBLE, .STRING]) :
    asStr np field array pos = some "-" := by
  unfold asStr
  split <;> simp_all

/-- Witness of C3 on a BOOL field (type id 1) and a null array. -/
theorem asStr_unsupported_witness :
    (TypeId.other 1) ∉ [TypeId.UINT8, .INT8, .UINT16, .INT16, .UINT32, .INT32, .UINT64, .INT64,
        .HALF_FLOAT, .FLOAT, .DOUBLE, .STRING]
      ∧ asStr sampleNumPut { name := "flag", type := .other 1 } none 5 = some "-" :=
  ⟨by decide, asStr_unsupported sampleNumPut { name := "flag", type := .other 1 } none 5
    (by decide)⟩

/-- C4: for every integer element type, with its array class and value bounds, and every
value `v` inside the bounds at position `pos` of the array, `asStr` yields the decimal
text of `v`, and reading that text back as a number gives `v` again; the 8-bit types are
among them, so their values come out as numbers. -/
theorem asStr_integer_roundtrip (np : NumPut) (field : Field) (cls : ArrayClass) (lo hi : Int)
    (values : List Int) (pos : Nat) (v : Int)
    (ht : (field.type, cls, lo, hi) ∈ integerTypes)
    (hpos : values[pos]? = some v) (_hv : lo ≤ v ∧ v ≤ hi) :
    asStr np field (some (.numeric cls values)) pos = some (decimalText v)
      ∧ parseDecimal (decimalText v) = some v := by
  refine ⟨?_, parseDecimal_decimalText v⟩
  simp only [integerTypes, List.mem_cons, Prod.mk.injEq, List.mem_singleton, List.not_mem_nil,
    or_false] at ht
  rcases ht with h | h | h | h | h | h | h | h <;>
    (obtain ⟨h1, h2, -, -⟩ := h
     subst h2
     simp [asStr, h1, Convert, Value, hpos, streamInsert, c_str_decimalText])

/-- Witness of C4: the Int32 value -42 becomes the text `-42`, which reads back as -42. -/
theorem asStr_integer_roundtrip_witness :
    (TypeId.INT32, ArrayClass.Int32Array, (-(2 ^ 31) : Int), (2 ^ 31 - 1 : Int)) ∈ integerTypes
      ∧ decimalText (-42) = "-42"
      ∧ asStr sampleNumPut { name := "n", type := .INT32 }
          (some (.numeric .Int32Array [7, -42])) 1 = some (decimalText (-42))
      ∧ parseDecimal (decimalText (-42)) = some (-42) :=
  ⟨by decide, by decide,
    asStr_integer_roundtrip sampleNumPut { name := "n", type := .INT32 } .Int32Array
      (-(2 ^ 31)) (2 ^ 31 - 1) [7, -42] 1 (-42) (by decide) (by decide) (by decide)⟩

/-- C8: for every initialized session without a preview whose path does not resolve to a
filesystem, or whose file cannot be opened, or whose reader cannot be constructed,
`DoPreview` returns `E_FAIL` without creating a view, and the state after is the state
before: `m_hwndPreview` stays null, the stored path is retained and the stored strings
are unchanged. -/
theorem DoPreview_source_unavailable (env : Env) (self : RecipePreviewHandler) (path : String)
    (hpre : self.m_hwndPreview = none) (hpath : self.m_pPathFile = some path)
    (hfail : env.FileSystemFromUriOrPath (env.CW2A path) = none
      ∨ (∃ fs, env.FileSystemFromUriOrPath (env.CW2A path) = some fs
          ∧ env.OpenInputFile fs (env.CW2A path) = none)
      ∨ (∃ fs input, env.FileSystemFromUriOrPath (env.CW2A path) = some fs
          ∧ env.OpenInputFile fs (env.CW2A path) = some input ∧ env.Open input = none)) :
    DoPreview env self = some (E_FAIL, self) := by
  unfold DoPreview
  rw [if_neg (by simp [hpre, hpath])]
  rcases hfail with h | ⟨fs, h1, h2⟩ | ⟨fs, input, h1, h2, h3⟩
  · simp [hpath, h]
  · simp [hpath, h1, h2]
  · simp [hpath, h1, h2, h3]

/-- Witness of C8 on a path that does not resolve to a filesystem. -/
theorem DoPreview_source_unavailable_witness :
    sampleMissing.m_hwndPreview = none ∧ sampleMissing.m_pPathFile = some "missing.feather"
      ∧ sampleEnv.FileSystemFromUriOrPath (sampleEnv.CW2A "missing.feather") = none
      ∧ DoPreview sampleEnv sampleMissing = some (E_FAIL, sampleMissing) :=
  ⟨by decide, by decide, by decide,
    DoPreview_source_unavailable sampleEnv sampleMissing "missing.feather" (by decide)
      (by decide) (Or.inl (by decide))⟩

/-- C9: for every session state `Unload` returns `S_OK` and yields the state with no
stored path, no preview view and no stored strings, the cached parent window, rectangle
and site (and the reference count) unchanged; `Unload` after `Unload` gives the same
result and state as one `Unload`. -/
theorem Unload_spec (self : RecipePreviewHandler) :
    Unload self = (S_OK, { self with m_pPathFile := none, m_hwndPreview := none, stored := [] })
      ∧ (Unload self).2.m_hwndParent = self.m_hwndParent
      ∧ (Unload self).2.m_rcParent = self.m_rcParent
      ∧ (Unload self).2.m_punkSite = self.m_punkSite
      ∧ Unload (Unload self).2 = Unload self := by
  have h : Unload self
      = (S_OK, { self with m_pPathFile := none, m_hwndPreview := none, stored := [] }) := by
    unfold Unload
    cases hp : self.m_pPathFile <;> cases hw : self.m_hwndPreview <;> simp [hp, hw]
  refine ⟨h, ?_, ?_, ?_, ?_⟩
  · rw [h]
  · rw [h]
  · rw [h]
  · rw [h]
    unfold Unload
    simp

/-! ## Properties of the materialization -/

/-- C7: for every schema of `k` distinctly named fields and every file with a single
well-formed row batch of `n` rows, the materialization of `DoPreview` returns; it adds
exactly `k` column headers in schema order, each inserted with width 100 and right
alignment; it writes exactly `n * k` cells, every position `(r, c)` with `r < n` and
`c < k` exactly once, with the stringified value of column `c` at row `r`, which is the
text the grid then shows there. -/
theorem materialize_single_batch (np : NumPut) (schema : List Field) (rb : RecordBatch)
    (stored : List String)
    (hnd : (schema.map Field.name).Nodup) (hwf : rb.WellFormed schema) :
    ∃ stored' lv,
      materialize np { schema := schema, batches := [rb] } (stored, ListView.empty)
          = some (stored', lv)
        ∧ lv.columns = schema.map (fun f => c_str (c_str f.name))
        ∧ lv.columnInserts = (schema.enumFrom 0).map (fun p =>
            (p.1, { fmt := LVCFMT_RIGHT, cx := 100, pszText := c_str (c_str p.2.name),
                    iSubItem := p.1 }))
        ∧ lv.columnInserts.length = schema.length
        ∧ lv.cellWrites.length = rb.num_rows * schema.length
        ∧ ∀ r c, r < rb.num_rows → c < schema.length →
            ∃ t, cellValue np schema rb r c = some t ∧ lv.writeCount r c = 1
              ∧ (r, c, t) ∈ lv.cellWrites ∧ lv.cell r c = some t := by
  have hmat := materialize_eq np { schema := schema, batches := [rb] } hnd
    (by simpa using hwf) stored ListView.empty
  simp only [List.flatMap_cons, List.flatMap_nil, List.append_nil] at hmat
  refine ⟨_, _, hmat, ?_, ?_, ?_, ?_, ?_⟩
  · rw [batchMsgs, sendAll_passMsgs_columns]
    simpa [ListView.empty, headerTexts] using sendAll_columnMsgs_columns schema ListView.empty
  · simp [ListView.columnInserts, sendAll_received, ListView.empty, batchMsgs,
      filterMap_columnInsert_columnMsgs, filterMap_columnInsert_passMsgs, headerInserts]
  · simp [ListView.columnInserts, sendAll_received, ListView.empty, batchMsgs,
      filterMap_columnInsert_columnMsgs, filterMap_columnInsert_passMsgs, headerInserts]
  · simp only [ListView.cellWrites, sendAll_received, ListView.empty, List.nil_append,
      List.filterMap_append, filterMap_cellWrite_columnMsgs, batchMsgs,
      filterMap_cellWrite_passMsgs, ← List.range_eq_range']
    rw [gridWrites_length, List.length_range]
  · intro r c hr hc
    have hf : schema[c]? = some schema[c] := List.getElem?_eq_getElem hc
    have hval := (asStr_wellFormed np schema rb hnd hwf c _ hf r hr).2
    have hw : ((ListView.empty.sendAll (columnMsgs 0 schema)).sendAll
        (batchMsgs np schema rb)).cellWrites
        = (List.range schema.length).flatMap (fun c => (List.range rb.num_rows).map
            (fun r => (r, c, cellText np schema rb r c))) := by
      simp only [ListView.cellWrites, sendAll_received, ListView.empty, List.nil_append,
        List.filterMap_append, filterMap_cellWrite_columnMsgs, batchMsgs,
        filterMap_cellWrite_passMsgs, ← List.range_eq_range']
    refine ⟨_, hval, ?_, ?_, ?_⟩
    · have hcount := gridKeys_count rb.num_rows schema.length r c hr hc
      have hk : (List.range schema.length).flatMap
            (fun c' => (List.range rb.num_rows).map (fun r' => (r', c')))
          = ((List.range schema.length).flatMap (fun c => (List.range rb.num_rows).map
              (fun r => (r, c, cellText np schema rb r c)))).map (fun w => (w.1, w.2.1)) := by
        simp [List.map_flatMap, Function.comp_def]
      rw [hk, List.countP_map] at hcount
      rw [ListView.writeCount, hw]
      exact hcount
    · rw [hw]
      simp only [List.mem_flatMap, List.mem_map, List.mem_range, Prod.mk.injEq]
      exact ⟨c, hc, r, hr, rfl, rfl, rfl⟩
    · have hne : schema ≠ [] := by
        intro h0; rw [h0] at hc; simp at hc
      rw [ListView.cell, sendAll_batchMsgs_items np schema hne, batchRows]
      exact passRows_cell _ _ _ r c hr hc _

/-- Witness of C7 on a schema of 2 fields and a batch of 3 rows: 2 headers, 6 cells. -/
theorem materialize_single_batch_witness :
    (sampleSchema.map Field.name).Nodup ∧ sampleBatch1.WellFormed sampleSchema
      ∧ ∃ stored' lv,
          materialize sampleNumPut { schema := sampleSchema, batches := [sampleBatch1] }
              ([], ListView.empty) = some (stored', lv)
            ∧ lv.columns = ["id", "name"]
            ∧ lv.columnInserts.length = 2
            ∧ lv.cellWrites.length = 6
            ∧ ∀ r c, r < 3 → c < 2 →
                ∃ t, cellValue sampleNumPut sampleSchema sampleBatch1 r c = some t
                  ∧ lv.writeCount r c = 1 ∧ (r, c, t) ∈ lv.cellWrites
                  ∧ lv.cell r c = some t := by
  obtain ⟨stored', lv, h1, h2, _, h4, h5, h6⟩ :=
    materialize_single_batch sampleNumPut sampleSchema sampleBatch1 [] (by decide) (by decide)
  exact ⟨by decide, by decide, stored', lv, h1, by rw [h2]; decide, h4, h5, h6⟩

/-- C5: for every file of well-formed row batches whose last-processed batch is `last`
(one earlier batch and 3 rows each in the two-batch case), once the materialization loop
of `DoPreview` completes, the grid rows `0 .. last.num_rows - 1` hold, in every column
`c`, the stringified value of `last` at `(row, c)`, whatever the earlier batches held;
and the loop does complete whenever the field names are distinct. -/
theorem materialize_last_batch (np : NumPut) (schema : List Field)
    (front : List RecordBatch) (last : RecordBatch) (stored : List String)
    (hwf : ∀ rb ∈ front ++ [last], rb.WellFormed schema) :
    ((schema.map Field.name).Nodup →
        ∃ result, materialize np { schema := schema, batches := front ++ [last] }
          (stored, ListView.empty) = some result)
      ∧ ∀ stored' lv,
          materialize np { schema := schema, batches := front ++ [last] }
              (stored, ListView.empty) = some (stored', lv) →
          ∀ r c, r < last.num_rows → c < schema.length →
            ∃ t, cellValue np schema last r c = some t ∧ lv.cell r c = some t := by
  refine ⟨fun hnd => ⟨_, materialize_eq np { schema := schema, batches := front ++ [last] }
    hnd hwf stored ListView.empty⟩, ?_⟩
  intro stored' lv hmat r c hr hc
  have hs : ∀ rb ∈ front ++ [last], rb.schema = schema := fun rb hrb => (hwf rb hrb).1
  have hval := cellValue_of_complete np { schema := schema, batches := front ++ [last] } hs
    _ _ hmat last (by simp) r c hr hc
  have hres := materialize_complete np { schema := schema, batches := front ++ [last] } hs
    _ _ hmat
  simp only [Prod.mk.injEq] at hres
  have hne : schema ≠ [] := by
    intro h0; rw [h0] at hc; simp at hc
  refine ⟨_, hval, ?_⟩
  rw [hres.2, ListView.cell, sendAll_batches_items np schema hne]
  simp only [List.reverse_append, List.reverse_cons, List.reverse_nil, List.nil_append,
    List.singleton_append, List.flatMap_cons, List.append_assoc]
  exact passRows_cell _ _ _ r c hr hc _

/-- Witness of C5 on a file of two batches with 3 rows each: the loop completes and rows
0..2 of the grid show the second batch. -/
theorem materialize_last_batch_witness :
    (∀ rb ∈ [sampleBatch1] ++ [sampleBatch2], rb.WellFormed sampleSchema)
      ∧ ∃ stored' lv,
          materialize sampleNumPut
              { schema := sampleSchema, batches := [sampleBatch1] ++ [sampleBatch2] }
              ([], ListView.empty) = some (stored', lv)
            ∧ ∀ r c, r < 3 → c < 2 →
                ∃ t, cellValue sampleNumPut sampleSchema sampleBatch2 r c = some t
                  ∧ lv.cell r c = some t := by
  have h := materialize_last_batch sampleNumPut sampleSchema [sampleBatch1] sampleBatch2 []
    (by decide)
  obtain ⟨⟨stored', lv⟩, hres⟩ := h.1 (by decide)
  exact ⟨by decide, stored', lv, hres, h.2 stored' lv hres⟩

/-- Counterexample to C6: on a file of two batches with 3 rows each, `DoPreview` reports
2 columns and 6 rows, and the grid holds 6 rows, not 3: the second batch's rows first,
then the first batch's. -/
theorem DoPreview_two_batches_grid :
    (DoPreview sampleEnv sampleInitialized).map
        (fun p => (p.1, p.2.m_hwndPreview.map
          (fun d => (d.IDC_STATIC_COLS, d.IDC_STATIC_ROWS, d.IDC_LIST_DATA.items))))
      = some (S_OK, some ("2", "6",
          [["4", "d"], ["5", "e"], ["-6", "f"], ["1", "a"], ["2", "b"], ["3", "c"]]))
    ∧ ¬ ∃ self' dlg, DoPreview sampleEnv sampleInitialized = some (S_OK, self')
          ∧ self'.m_hwndPreview = some dlg ∧ dlg.IDC_LIST_DATA.items.length = 3 := by
  refine ⟨by decide, ?_⟩
  rintro ⟨self', dlg, h1, h2, h3⟩
  have h4 : (DoPreview sampleEnv sampleInitialized).map
      (fun p => p.2.m_hwndPreview.map (fun d => d.IDC_LIST_DATA.items.length))
      = some (some 6) := by decide
  rw [h1] at h4
  simp [h2, h3] at h4

/-- C6 as amended: for a file of two well-formed batches with 3 rows each, whenever
`DoPreview` returns it returns `S_OK` with a view whose summary reports the row count
`6` and the number of schema fields as column count, both as decimal text, and, the
schema having at least one field, whose grid holds 6 rows: rows 0..2 show the second
batch and rows 3..5 the first, so the reported row count equals the number of rows in
the grid.  `DoPreview` does return whenever the field names are distinct. -/
theorem DoPreview_two_batches_summary (env : Env) (self : RecipePreviewHandler)
    (path : String) (fs input : Nat) (schema : List Field) (b1 b2 : RecordBatch)
    (hpre : self.m_hwndPreview = none) (hpath : self.m_pPathFile = some path)
    (hfs : env.FileSystemFromUriOrPath (env.CW2A path) = some fs)
    (hin : env.OpenInputFile fs (env.CW2A path) = some input)
    (hrd : env.Open input = some { schema := schema, batches := [b1, b2] })
    (hdlg : env.CreateDialog self.m_hwndParent = true)
    (hwf1 : b1.WellFormed schema) (hwf2 : b2.WellFormed schema)
    (hn1 : b1.num_rows = 3) (hn2 : b2.num_rows = 3) :
    ((schema.map Field.name).Nodup → ∃ self', DoPreview env self = some (S_OK, self'))
      ∧ ∀ hr self', DoPreview env self = some (hr, self') →
          hr = S_OK ∧ ∃ dlg, self'.m_hwndPreview = some dlg
            ∧ dlg.IDC_STATIC_ROWS = "6"
            ∧ dlg.IDC_STATIC_COLS = decimalText (schema.length : Nat)
            ∧ (schema ≠ [] → dlg.IDC_LIST_DATA.items.length = 6)
            ∧ ∀ r c, r < 3 → c < schema.length →
                (∃ t, cellValue env.numPut schema b2 r c = some t
                  ∧ dlg.IDC_LIST_DATA.cell r c = some t)
                ∧ (∃ t, cellValue env.numPut schema b1 r c = some t
                  ∧ dlg.IDC_LIST_DATA.cell (r + 3) c = some t) := by
  have hwf : ∀ rb ∈ [b1, b2], rb.WellFormed schema := by
    intro rb hrb
    simp only [List.mem_cons, List.mem_singleton, List.not_mem_nil, or_false] at hrb
    rcases hrb with rfl | rfl
    · exact hwf1
    · exact hwf2
  have hs : ∀ rb ∈ [b1, b2], rb.schema = schema := fun rb hrb => (hwf rb hrb).1
  constructor
  · intro hnd
    have hmat := materialize_eq env.numPut { schema := schema, batches := [b1, b2] } hnd hwf
      self.stored ListView.empty
    exact ⟨_, DoPreview_success env self path fs input _ _ _ hpre hpath hfs hin hrd hdlg hmat⟩
  · intro hr self' hdo
    obtain ⟨stored, lv, dlg, hmat, hhr, hview, hlist, hcols, hrows⟩ :=
      DoPreview_complete env self path fs input _ hpre hpath hfs hin hrd hdlg hr self' hdo
    have hres := materialize_complete env.numPut { schema := schema, batches := [b1, b2] } hs
      _ _ hmat
    simp only [Prod.mk.injEq] at hres
    have hitems : schema ≠ [] → dlg.IDC_LIST_DATA.items
        = batchRows env.numPut schema b2 ++ (batchRows env.numPut schema b1 ++ []) := by
      intro hne
      rw [hlist, hres.2, sendAll_batches_items env.numPut schema hne, sendAll_columnMsgs_items]
      simp [ListView.empty]
    refine ⟨hhr, dlg, hview, ?_, hcols, ?_, ?_⟩
    · rw [hrows]
      simp only [List.map_cons, List.map_nil, List.sum_cons, List.sum_nil, hn1, hn2]
      decide
    · intro hne
      simp only [hitems hne, batchRows, passRows, hn1, hn2]
      simp
    · intro r c hr hc
      have hne : schema ≠ [] := by
        intro h0; rw [h0] at hc; simp at hc
      have hv2 := cellValue_of_complete env.numPut { schema := schema, batches := [b1, b2] }
        hs _ _ hmat b2 (by simp) r c (by omega) hc
      have hv1 := cellValue_of_complete env.numPut { schema := schema, batches := [b1, b2] }
        hs _ _ hmat b1 (by simp) r c (by omega) hc
      refine ⟨⟨_, hv2, ?_⟩, ⟨_, hv1, ?_⟩⟩
      · simp only [ListView.cell, hitems hne, batchRows]
        exact passRows_cell _ _ _ r c (by omega) hc _
      · simp only [ListView.cell, hitems hne, batchRows]
        have hlen : (passRows (fun c r => cellText env.numPut schema b2 r c) b2.num_rows
            schema.length).length = 3 := by simp [passRows, hn2]
        rw [List.getElem?_append_right (by omega), hlen, Nat.add_sub_cancel]
        exact passRows_cell _ _ _ r c (by omega) hc _

/-- Witness of C6 as amended on the sample file of two batches with 3 rows each. -/
theorem DoPreview_two_batches_summary_witness :
    sampleBatch1.WellFormed sampleSchema ∧ sampleBatch2.WellFormed sampleSchema
      ∧ sampleBatch1.num_rows = 3 ∧ sampleBatch2.num_rows = 3
      ∧ ∃ self' dlg,
          DoPreview sampleEnv sampleInitialized = some (S_OK, self')
            ∧ self'.m_hwndPreview = some dlg
            ∧ dlg.IDC_STATIC_ROWS = "6"
            ∧ dlg.IDC_LIST_DATA.items.length = 6 := by
  have h := DoPreview_two_batches_summary sampleEnv sampleInitialized "data.feather" 0 0
    sampleSchema sampleBatch1 sampleBatch2 (by decide) (by decide) (by decide) (by decide)
    (by decide) (by decide) (by decide) (by decide) (by decide) (by decide)
  obtain ⟨self', hdo⟩ := h.1 (by decide)
  obtain ⟨_, dlg, h2, h3, _, h5, _⟩ := h.2 S_OK self' hdo
  exact ⟨by decide, by decide, by decide, by decide, self', dlg, hdo, h2, h3,
    h5 (by decide)⟩

/-- C10, the code at the failing input: for a schema whose two fields share the name
`a`, with a well-formed batch whose two columns hold different data (`1` and `2`, the
values the grid columns 0 and 1 should show), the lookup by name finds no column, `asStr`
dereferences the null array, and the materialization has no result: neither grid column
shows its own column's data. -/
theorem materialize_duplicate_names :
    dupBatch.WellFormed dupSchema
      ∧ dupBatch.GetColumnByName "a" = none
      ∧ cellValue sampleNumPut dupSchema dupBatch 0 0 = some "1"
      ∧ cellValue sampleNumPut dupSchema dupBatch 0 1 = some "2"
      ∧ materialize sampleNumPut { schema := dupSchema, batches := [dupBatch] }
          ([], ListView.empty) = none := by
  decide

/-- Columns by position when nothing goes wrong: for every schema and every file of
well-formed row batches, whenever the materialization of `DoPreview` completes, the cell
writes it sent are, batch after batch and column index after column index, the
stringified values of the batch's column at that same index; and it completes whenever
the field names are pairwise distinct. -/
theorem materialize_columns_by_position (np : NumPut) (reader : RecordBatchFileReader)
    (stored : List String)
    (hwf : ∀ rb ∈ reader.batches, rb.WellFormed reader.schema) :
    ((reader.schema.map Field.name).Nodup →
        ∃ result, materialize np reader (stored, ListView.empty) = some result)
      ∧ ∀ stored' lv, materialize np reader (stored, ListView.empty) = some (stored', lv) →
          lv.cellWrites = reader.batches.flatMap (fun rb =>
              (List.range reader.schema.length).flatMap (fun c =>
                (List.range rb.num_rows).map (fun r =>
                  (r, c, (cellValue np reader.schema rb r c).getD ""))))
            ∧ ∀ rb ∈ reader.batches, ∀ r c, r < rb.num_rows → c < reader.schema.length →
                (cellValue np reader.schema rb r c).isSome = true := by
  refine ⟨fun hnd => ⟨_, materialize_eq np reader hnd hwf stored ListView.empty⟩, ?_⟩
  intro stored' lv hmat
  have hs : ∀ rb ∈ reader.batches, rb.schema = reader.schema := fun rb hrb => (hwf rb hrb).1
  have hres := materialize_complete np reader hs _ _ hmat
  simp only [Prod.mk.injEq] at hres
  constructor
  · rw [hres.2]
    simp only [ListView.cellWrites, sendAll_received, ListView.empty, List.nil_append,
      List.filterMap_append, filterMap_cellWrite_columnMsgs, List.filterMap_flatMap, batchMsgs,
      filterMap_cellWrite_passMsgs, ← List.range_eq_range']
    rfl
  · intro rb hrb r c hr hc
    rw [cellValue_of_complete np reader hs _ _ hmat rb hrb r c hr hc]
    rfl

/-- The cell writes for the sample file of two batches, column by column. -/
theorem materialize_columns_by_position_sample :
    (∀ rb ∈ sampleReader.batches, rb.WellFormed sampleReader.schema)
      ∧ ∃ stored' lv,
          materialize sampleNumPut sampleReader ([], ListView.empty) = some (stored', lv)
            ∧ lv.cellWrites =
                [(0, 0, "1"), (1, 0, "2"), (2, 0, "3"), (0, 1, "a"), (1, 1, "b"), (2, 1, "c"),
                 (0, 0, "4"), (1, 0, "5"), (2, 0, "-6"), (0, 1, "d"), (1, 1, "e"),
                 (2, 1, "f")] := by
  have h := materialize_columns_by_position sampleNumPut sampleReader [] (by decide)
  obtain ⟨⟨stored', lv⟩, hres⟩ := h.1 (by decide)
  exact ⟨by decide, stored', lv, hres, by rw [(h.2 stored' lv hres).1]; decide⟩

end RecipePreview
